import Mathlib

/-!
# Verification of the zebra-h2b UMAP coordinate pipeline

Shallow embedding of the pipeline scripts of this repository:

* `src/packages/db/populate-umap-coordinates.py`  (namespace `Populate`)
* `src/scripts/embeddings/umap-reduce.py`         (namespace `Reduce`)
* `src/visualization-pipeline/03_update_database.py` (namespace `UpdateDb`)
* `src/visualization-pipeline/01_extract_embeddings.py` (namespace `Extract`)

Conventions of the embedding:

* Floating point numbers are modelled as rationals (`Q`); the UMAP
  projection itself is an external black box and is passed in as an
  opaque function argument, so determinism-given-a-seed is represented
  by it being a plain function.
* A database table is a `List` of record structures; `NULL`able columns
  are `Option` fields.  A SQL schema is a `Finset String` of column
  names (SQL forbids duplicate column names in a table).
* Python exceptions are modelled with `Except String`; `sys.exit(1)` is
  a non-zero exit code in the functions that model `main`.
* Python `float(...)` / `json.loads` number parsing is modelled by
  `pyFloat`, restricted to plain decimal/exponent literals (the format
  pgvector produces); what matters for the claims is which strings fail.
-/

namespace UmapPipeline

/-!
### Exact numbers

Floating point values are modelled exactly: `Q` is a rational number
kept as an unreduced fraction (integer numerator, positive denominator).
The pipeline never branches on a numeric value except where modelled
explicitly, so unreduced fractions are a faithful value model, and every
operation on them reduces inside the kernel.
-/

/-- A rational number as an unreduced fraction. -/
structure Q where
  num : Int
  den : Nat
deriving DecidableEq

/-- Embed a natural number. -/
def qofNat (n : Nat) : Q := ⟨n, 1⟩

/-- Embed an integer. -/
def qofInt (n : Int) : Q := ⟨n, 1⟩

/-- Fraction `n / 10^k`. -/
def qtenth (n : Nat) (k : Nat) : Q := ⟨n, 10 ^ k⟩

/-- Addition of fractions. -/
def qadd (a b : Q) : Q := ⟨a.num * b.den + b.num * a.den, a.den * b.den⟩

/-- Multiplication of fractions. -/
def qmul (a b : Q) : Q := ⟨a.num * b.num, a.den * b.den⟩

/-- Reciprocal (zero maps to a zero-denominator fraction; callers guard). -/
def qinv (a : Q) : Q :=
  if 0 ≤ a.num then ⟨(a.den : Int), a.num.toNat⟩
  else ⟨-(a.den : Int), (-a.num).toNat⟩

/-- Division of fractions. -/
def qdiv (a b : Q) : Q := qmul a (qinv b)

/-- Numeric zero test (what Python compares before raising
`ZeroDivisionError`). -/
def qzero (a : Q) : Bool := a.num = 0

/-- Numeric `≤` on fractions with positive denominators. -/
def qle (a b : Q) : Bool := a.num * b.den ≤ b.num * a.den

/-- `10 ^ k` as a fraction. -/
def qpow10 (k : Nat) : Q := ⟨(10 : Int) ^ k, 1⟩

/-- `10 ^ e` for a signed exponent. -/
def qpow10i : Int → Q
  | .ofNat n => ⟨(10 : Int) ^ n, 1⟩
  | .negSucc n => ⟨1, 10 ^ (n + 1)⟩

/-- Round to the nearest integer (half up), `⌊x + 1/2⌋`. -/
def qround (a : Q) : Int := (2 * a.num + (a.den : Int)).fdiv (2 * (a.den : Int))

/-- Minimum of a list of fractions (SQL `MIN` over non-NULL values). -/
def qminList : List Q → Option Q
  | [] => none
  | a :: l => some (l.foldl (fun m x => if qle x m then x else m) a)

/-- Maximum of a list of fractions (SQL `MAX` over non-NULL values). -/
def qmaxList : List Q → Option Q
  | [] => none
  | a :: l => some (l.foldl (fun m x => if qle m x then x else m) a)

/-!
### Character-list string utilities

The scripts slice and split strings; these are modelled on the
character list of the string so that they compute by structural
recursion.
-/

/-- Split a character list on a separator character (the single-character
case of Python `str.split` / `String.splitOn`). -/
def splitOnChar (sep : Char) : List Char → List (List Char)
  | [] => [[]]
  | c :: cs =>
    match splitOnChar sep cs with
    | [] => [[]]
    | g :: gs => if c = sep then [] :: g :: gs else (c :: g) :: gs

/-- Whitespace stripped by Python `str.strip()` around float literals. -/
def isPySpace (c : Char) : Bool :=
  c = ' ' ∨ c = '\t' ∨ c = '\n' ∨ c = '\r'

/-- Python `s.strip()` on a character list. -/
def trimChars (cs : List Char) : List Char :=
  ((cs.dropWhile isPySpace).reverse.dropWhile isPySpace).reverse

/-- Byte-wise (code-point) lexicographic `≤` on character lists; the
order `ORDER BY value_hash` sorts text by. -/
def strLeChars : List Char → List Char → Bool
  | [], _ => true
  | _ :: _, [] => false
  | a :: as, b :: bs =>
    if a.toNat < b.toNat then true
    else if b.toNat < a.toNat then false
    else strLeChars as bs

/-- Lexicographic `≤` on strings. -/
def strLe (a b : String) : Bool := strLeChars a.data b.data

/-- Prefix test on strings (the shape of SQL `LIKE 'p%'`). -/
def strStartsWith (s pre : String) : Bool := pre.data.isPrefixOf s.data

/-- Numeric value of a decimal digit character. -/
def digitVal (c : Char) : Nat := c.toNat - 48

/-- Accumulate a digit string into a natural number (total; empty gives 0). -/
def digitsToNat (cs : List Char) : Nat :=
  cs.foldl (fun a c => a * 10 + digitVal c) 0

/-- Parse a nonempty all-digit character list. -/
def parseDigits (cs : List Char) : Option Nat :=
  if cs ≠ [] ∧ cs.all Char.isDigit then some (digitsToNat cs) else none

/-- Split off one optional leading sign, returning the sign as `1`/`-1`. -/
def parseSign : List Char → Int × List Char
  | '-' :: cs => (-1, cs)
  | '+' :: cs => (1, cs)
  | cs => (1, cs)

/-- Parse the mantissa part of a Python float literal: digits with an
optional decimal point, at least one digit in total. -/
def parseMantissa (cs : List Char) : Option Q :=
  match splitOnChar '.' cs with
  | [ip] => (parseDigits ip).map qofNat
  | [ip, fp] =>
    if (ip ≠ [] ∨ fp ≠ []) ∧ ip.all Char.isDigit ∧ fp.all Char.isDigit then
      some (qadd (qofNat (digitsToNat ip)) (qtenth (digitsToNat fp) fp.length))
    else none
  | _ => none

/-- Parse a signed exponent (nonempty digits after an optional sign). -/
def parseExp (cs : List Char) : Option Int :=
  match cs with
  | '-' :: ds => (parseDigits ds).map (fun n => -(n : Int))
  | '+' :: ds => (parseDigits ds).map (fun n => (n : Int))
  | ds => (parseDigits ds).map (fun n => (n : Int))

/-- Model of Python `float(s)` (and of a JSON number) on decimal literals:
strips whitespace, accepts an optional sign, digits with an optional
decimal point, and an optional `e`/`E` exponent.  Returns `none` exactly
when Python would raise `ValueError` (malformed literal). -/
def pyFloat (s : String) : Option Q :=
  let cs := (trimChars s.data).map (fun c => if c = 'E' then 'e' else c)
  let sc := parseSign cs
  match splitOnChar 'e' sc.2 with
  | [m] => (parseMantissa m).map (fun q => qmul (qofInt sc.1) q)
  | [m, e] => do
    let q ← parseMantissa m
    let ex ← parseExp e
    some (qmul (qmul (qofInt sc.1) q) (qpow10i ex))
  | _ => none

/-- Python `/` on numbers: raises `ZeroDivisionError` on a zero divisor. -/
def pydiv (a b : Q) : Except String Q :=
  if qzero b then .error "ZeroDivisionError: division by zero" else .ok (qdiv a b)

/-- Decimal digits of `n`, most significant first (`fuel`-structured so
that it reduces in the kernel; `fuel = n` always suffices). -/
def natDigitsGo : Nat → Nat → List Char
  | 0, _ => []
  | fuel + 1, n =>
    if n = 0 then [] else natDigitsGo fuel (n / 10) ++ [Nat.digitChar (n % 10)]

/-- Decimal digit characters of a natural number, most significant first. -/
def natDigits (n : Nat) : List Char := natDigitsGo n n

/-- Model of Python `str(n)` on a non-negative integer. -/
def pyStrNat (n : Nat) : String := if n = 0 then "0" else ⟨natDigits n⟩

/-- Left-pad a digit string with `'0'` up to length `k`. -/
def padToWidth (k : Nat) (cs : List Char) : List Char :=
  List.replicate (k - cs.length) '0' ++ cs

/-- Model of Python `f"{q:.kf}"` fixed-point formatting of a (rational)
float with `k` digits after the decimal point. -/
def fmtFixed (k : Nat) (q : Q) : String :=
  let scaled : Int := qround (qmul q (qpow10 k))
  let sgn := if scaled < 0 then "-" else ""
  let a := scaled.natAbs
  sgn ++ pyStrNat (a / 10 ^ k) ++ "." ++ (⟨padToWidth k (natDigits (a % 10 ^ k))⟩ : String)

/-- The field sanitization done in `export_tsv` of `umap-reduce.py`:
`value.replace('\t', ' ').replace('\n', ' ').replace('\r', ' ')`.
Each single-character replacement is a character map, so the composition
is the character map that turns tab, LF and CR into a space. -/
def sanitizeChar (c : Char) : Char :=
  if c = '\t' ∨ c = '\n' ∨ c = '\r' then ' ' else c

/-- `s.replace('\t',' ').replace('\n',' ').replace('\r',' ')` as a map. -/
def sanitize (s : String) : String := ⟨s.data.map sanitizeChar⟩

/-- Number of LF characters in a string; a TSV file whose every record
row ends in `'\n'` has exactly this many lines. -/
def lineCount (s : String) : Nat := s.data.count '\n'

/-- Chunking worker, structural in `fuel` (`fuel ≥ length` suffices). -/
def chunkGo (k : Nat) : Nat → List α → List (List α)
  | 0, _ => []
  | _, [] => []
  | fuel + 1, a :: l =>
    if k = 0 then [] else (a :: l).take k :: chunkGo k fuel ((a :: l).drop k)

/-- Split a list into consecutive chunks of size `k` (the shape of
`for i in range(0, n, BATCH_SIZE)` loops over index lists). -/
def chunkList (k : Nat) (l : List α) : List (List α) := chunkGo k l.length l

/-- `chunkGo` on the empty list. -/
theorem chunkGo_nil (k : Nat) (fuel : Nat) : chunkGo k fuel ([] : List α) = [] := by
  cases fuel <;> rfl

/-- The chunks concatenate back to the list (worker form). -/
theorem chunkGo_flatten (k : Nat) (hk : 0 < k) :
    ∀ (fuel : Nat) (l : List α), l.length ≤ fuel →
    (chunkGo k fuel l).flatten = l := by
  intro fuel
  induction fuel with
  | zero =>
    intro l hl
    have hnil : l = [] := List.eq_nil_of_length_eq_zero (by omega)
    subst hnil
    rfl
  | succ fuel ih =>
    intro l hl
    cases l with
    | nil => rw [chunkGo_nil]; rfl
    | cons a l =>
      rw [chunkGo, if_neg (by omega), List.flatten_cons, ih]
      · exact List.take_append_drop _ _
      · simp only [List.length_drop, List.length_cons] at hl ⊢
        omega

/-- The chunks of a list concatenate back to the list. -/
theorem chunkList_flatten (k : Nat) (hk : 0 < k) (l : List α) :
    (chunkList k l).flatten = l :=
  chunkGo_flatten k hk l.length l le_rfl

/-- Concatenation of the lines written to one file, in order. -/
def joinStr : List String → String
  | [] => ""
  | a :: l => a ++ joinStr l

/-- Effectful map over a list in the `Option` monad (the shape of
`[f(x) for x in l]` where `f` may raise): `none` as soon as one element
fails. -/
def eachSome {α β : Type} (f : α → Option β) : List α → Option (List β)
  | [] => some []
  | a :: l => do
    let b ← f a
    let bs ← eachSome f l
    some (b :: bs)

/-- Effectful map over a list in the `Except` monad: the first raised
exception aborts the traversal. -/
def eachOk {α β : Type} (f : α → Except String β) : List α → Except String (List β)
  | [] => .ok []
  | a :: l => do
    let b ← f a
    let bs ← eachOk f l
    .ok (b :: bs)

namespace Populate

/-- One row of `embedding_cache` as read and written by
`src/packages/db/populate-umap-coordinates.py`.  The script touches the
columns `id`, `value`, `embedding_small` and the five UMAP coordinate
columns; the vector column is delivered to the script already decoded
by the database driver. -/
structure Record where
  id : Int
  value : String
  embedding_small : Option (List Q)
  umap_x_2d : Option Q
  umap_y_2d : Option Q
  umap_x_3d : Option Q
  umap_y_3d : Option Q
  umap_z_3d : Option Q
deriving DecidableEq

abbrev Store := List Record

/-- `BATCH_SIZE = 100` from the script's configuration section. -/
def BATCH_SIZE : Nat := 100

/-- `fetch_embeddings`:
`SELECT id, value, embedding_small FROM embedding_cache
 WHERE umap_x_2d IS NULL ORDER BY id`, then split into the three
parallel lists `(ids, labels, embeddings)` the script returns. -/
def fetch_embeddings (s : Store) :
    List Int × List String × List (Option (List Q)) :=
  let rows := List.insertionSort (fun a b => a.id ≤ b.id)
    (s.filter (fun r => r.umap_x_2d = none))
  (rows.map (fun r => r.id), rows.map (fun r => r.value),
    rows.map (fun r => r.embedding_small))

/-- One parameter tuple of the `UPDATE` statement:
`(umap_x_2d, umap_y_2d, umap_x_3d, umap_y_3d, umap_z_3d, id)`. -/
structure WriteRow where
  x2 : Q
  y2 : Q
  x3 : Q
  y3 : Q
  z3 : Q
  rid : Int
deriving DecidableEq

/-- The tuple built for loop index `j` in `update_umap_coordinates`:
`(float(coords_2d[j,0]), float(coords_2d[j,1]), float(coords_3d[j,0]),
float(coords_3d[j,1]), float(coords_3d[j,2]), ids[j])`; `none` models the
`IndexError` raised when a matrix has fewer rows than `ids`. -/
def writeTuple (ids : List Int) (c2 : List (Q × Q))
    (c3 : List (Q × Q × Q)) (j : Nat) : Option WriteRow := do
  let a ← c2.get? j
  let b ← c3.get? j
  let i ← ids.get? j
  some ⟨a.1, a.2, b.1, b.2.1, b.2.2, i⟩

/-- Effect of the `UPDATE ... WHERE id = %s` row assignment on one record. -/
def setCoords (t : WriteRow) (r : Record) : Record :=
  { r with umap_x_2d := some t.x2, umap_y_2d := some t.y2,
           umap_x_3d := some t.x3, umap_y_3d := some t.y3,
           umap_z_3d := some t.z3 }

/-- One `UPDATE` statement applied to one stored record: rows whose `id`
matches the tuple's key receive the five coordinate values. -/
def applyWrite (t : WriteRow) (r : Record) : Record :=
  if r.id = t.rid then setCoords t r else r

/-- `cur.executemany(update_query, batch_data)`: the statements of one
batch applied in order over the table. -/
def applyBatch (s : Store) (ts : List WriteRow) : Store :=
  ts.foldl (fun st t => st.map (applyWrite t)) s

/-- All write statements of a list of tuples folded over one record. -/
def rowUpd (ts : List WriteRow) (r : Record) : Record :=
  ts.foldl (fun r t => applyWrite t r) r

/-- The batch loop of `update_umap_coordinates` over chunks of row
indices (`for i in range(0, len(ids), BATCH_SIZE)`), carrying the running
`total_updated` and the batch number.  `cf k = true` means the commit of
batch `k` fails; the script has no `try` around the loop body, so a
failed commit propagates as an exception: the batch is not applied and
no further batch is attempted. -/
def updateGo (ids : List Int) (c2 : List (Q × Q)) (c3 : List (Q × Q × Q))
    (cf : Nat → Bool) :
    Store → Nat → Nat → List (List Nat) → Store × Except String Nat
  | s, total, _, [] => (s, .ok total)
  | s, total, k, js :: rest =>
    match eachSome (writeTuple ids c2 c3) js with
    | none => (s, .error "IndexError")
    | some ts =>
      if cf k then (s, .error "WriteError: batch commit failed")
      else updateGo ids c2 c3 cf (applyBatch s ts) (total + ts.length) (k + 1) rest

/-- `update_umap_coordinates(conn, ids, coords_2d, coords_3d)`: updates in
batches of `BATCH_SIZE`, committing after each batch, returning the count
of updated rows; `cf` is the commit failure oracle. -/
def update_umap_coordinates (s : Store) (ids : List Int) (c2 : List (Q × Q))
    (c3 : List (Q × Q × Q)) (cf : Nat → Bool) : Store × Except String Nat :=
  updateGo ids c2 c3 cf s 0 0 (chunkList BATCH_SIZE (List.range ids.length))

/-- SQL `MIN(col)` over a table: NULLs ignored, NULL on an empty column. -/
def aggMin (s : Store) (f : Record → Option Q) : Option Q :=
  qminList (s.filterMap f)

/-- SQL `MAX(col)` over a table. -/
def aggMax (s : Store) (f : Record → Option Q) : Option Q :=
  qmaxList (s.filterMap f)

/-- `f"{stats[i]:.2f}"` on an aggregate: formatting `None` raises. -/
def fmtAgg (o : Option Q) : Except String String :=
  match o with
  | none => .error "TypeError: unsupported format string passed to NoneType"
  | some q => .ok (fmtFixed 2 q)

/-- Output of `verify_population`: the printed statistics. -/
structure VStats where
  total : Nat
  populated2 : Nat
  populated3 : Nat
  pct2 : Q
  pct3 : Q
  ranges : List String
deriving DecidableEq

/-- `verify_population(conn)`: reads
`COUNT(*), COUNT(umap_x_2d), COUNT(umap_x_3d)` and the min/max of each of
the five coordinate columns and prints
`100*stats[1]/stats[0]`, `100*stats[2]/stats[0]` followed by the
`:.2f`-formatted ranges, in the print order of the script. -/
def verify_population (s : Store) : Except String VStats := do
  let total := s.length
  let pop2 := (s.filter (fun r => r.umap_x_2d ≠ none)).length
  let pop3 := (s.filter (fun r => r.umap_x_3d ≠ none)).length
  let pct2 ← pydiv (qofNat (100 * pop2)) (qofNat total)
  let pct3 ← pydiv (qofNat (100 * pop3)) (qofNat total)
  let r1 ← fmtAgg (aggMin s (fun r => r.umap_x_2d))
  let r2 ← fmtAgg (aggMax s (fun r => r.umap_x_2d))
  let r3 ← fmtAgg (aggMin s (fun r => r.umap_y_2d))
  let r4 ← fmtAgg (aggMax s (fun r => r.umap_y_2d))
  let r5 ← fmtAgg (aggMin s (fun r => r.umap_x_3d))
  let r6 ← fmtAgg (aggMax s (fun r => r.umap_x_3d))
  let r7 ← fmtAgg (aggMin s (fun r => r.umap_y_3d))
  let r8 ← fmtAgg (aggMax s (fun r => r.umap_y_3d))
  let r9 ← fmtAgg (aggMin s (fun r => r.umap_z_3d))
  let r10 ← fmtAgg (aggMax s (fun r => r.umap_z_3d))
  return ⟨total, pop2, pop3, pct2, pct3, [r1, r2, r3, r4, r5, r6, r7, r8, r9, r10]⟩

/-- `main()` of the script: fetch; if nothing is pending, close and
return (exit code 0, store untouched); otherwise compute the projections
(`p2`, `p3` are the opaque seeded UMAP calls; a `NULL` embedding in a
fetched row makes the numeric conversion raise), update in batches, then
verify.  `psycopg2` errors and other exceptions are caught in `main` and
turn into `sys.exit(1)`. -/
def mainRun (s : Store) (cf : Nat → Bool)
    (p2 : List (List Q) → List (Q × Q))
    (p3 : List (List Q) → List (Q × Q × Q)) : Nat × Store :=
  let f := fetch_embeddings s
  if f.1.isEmpty then (0, s)
  else
    match eachSome (fun o => o) f.2.2 with
    | none => (1, s)
    | some embs =>
      match update_umap_coordinates s f.1 (p2 embs) (p3 embs) cf with
      | (t, .error _) => (1, t)
      | (t, .ok _) =>
        match verify_population t with
        | .error _ => (1, t)
        | .ok _ => (0, t)

end Populate

/-- The five UMAP coordinate columns of `embedding_cache`. -/
def umapColumns : List String :=
  ["umap_x_2d", "umap_y_2d", "umap_x_3d", "umap_y_3d", "umap_z_3d"]

namespace Reduce

/-- One row of `embedding_cache` as seen by
`src/scripts/embeddings/umap-reduce.py`.  `embedding_small` arrives from
`psycopg2` as the textual pgvector representation, which the script
parses itself. -/
structure Row where
  value_hash : String
  value : String
  embedding_small : Option String
  source_table : String
  source_column : String
  usage_count : Nat
  umap_x_2d : Option Q
  umap_y_2d : Option Q
  umap_x_3d : Option Q
  umap_y_3d : Option Q
  umap_z_3d : Option Q
deriving DecidableEq

abbrev Store := List Row

/-- The column list of the `SELECT` in `fetch_embeddings`; the `WHERE`
and `ORDER BY` clauses only use columns of this projection. -/
structure Core where
  value_hash : String
  value : String
  embedding_small : Option String
  source_table : String
  source_column : String
  usage_count : Nat
deriving DecidableEq

/-- Project a stored row onto the selected columns. -/
def Row.core (r : Row) : Core :=
  ⟨r.value_hash, r.value, r.embedding_small, r.source_table,
    r.source_column, r.usage_count⟩

/-- One element of the `data` list built by `fetch_embeddings`. -/
structure Entry where
  value_hash : String
  value : String
  embedding : List Q
  source_table : String
  source_column : String
  usage_count : Nat
deriving DecidableEq

/-- The per-row vector decoding in `fetch_embeddings`:
`json.loads` when the text is bracketed, otherwise
`[float(x) for x in embedding_str.split(',')]`.  An error models the
uncaught exception raised on malformed text. -/
def parseVector (s : String) : Except String (List Q) :=
  if s.data.head? = some '[' ∧ s.data.getLast? = some ']' then
    let inner := (s.data.drop 1).dropLast
    if trimChars inner = [] then .ok []
    else
      match eachSome (fun g => pyFloat ⟨g⟩) (splitOnChar ',' inner) with
      | some v => .ok v
      | none => .error "json.decoder.JSONDecodeError"
  else
    match eachSome (fun g => pyFloat ⟨g⟩) (splitOnChar ',' s.data) with
    | some v => .ok v
    | none => .error "ValueError: could not convert string to float"

/-- Decode one selected row into a `data` entry. -/
def parseRow (c : Core) : Except String Entry :=
  match c.embedding_small with
  | none => .error "TypeError: embedding is NULL"
  | some es =>
    match parseVector es with
    | .ok v =>
      .ok ⟨c.value_hash, c.value, v, c.source_table, c.source_column,
        c.usage_count⟩
    | .error e => .error e

/-- `fetch_embeddings` on the selected columns:
`WHERE embedding_small IS NOT NULL ORDER BY value_hash`; an empty result
makes the script `sys.exit(1)`; then every row is decoded in order, an
uncaught parse exception aborting the whole fetch. -/
def fetchCore (cs : List Core) : Except String (List Entry) :=
  let rows := List.insertionSort (fun a b => strLe a.value_hash b.value_hash = true)
    (cs.filter (fun c => c.embedding_small ≠ none))
  if rows.isEmpty then .error "No embeddings found in database"
  else eachOk parseRow rows

/-- `fetch_embeddings(conn)`: the `SELECT` projects the six columns of
`Core`, then filters, orders and decodes. -/
def fetch_embeddings (s : Store) : Except String (List Entry) :=
  fetchCore (s.map Row.core)

/-- A `data` entry after `run_umap` attached `umap_2d` and `umap_3d`. -/
structure EntryC where
  value_hash : String
  value : String
  embedding : List Q
  source_table : String
  source_column : String
  usage_count : Nat
  umap_2d : List Q
  umap_3d : List Q
deriving DecidableEq

/-- `np.vstack` succeeds only on a nonempty list of equal-length rows. -/
def uniformRows (m : List (List Q)) : Bool :=
  match m with
  | [] => false
  | v :: rest => rest.all (fun w => w.length = v.length)

/-- Row `i` of a coordinate matrix; `IndexError` past the end. -/
def expectRow (m : List (List Q)) (i : Nat) : Except String (List Q) :=
  match m.get? i with
  | some v => .ok v
  | none => .error "IndexError"

/-- The `for i, d in enumerate(data)` loop of `run_umap` that stores
`coords_2d[i]` and `coords_3d[i]` on entry `i`. -/
def attachCoords (c2 c3 : List (List Q)) :
    Nat → List Entry → Except String (List EntryC)
  | _, [] => .ok []
  | i, d :: rest => do
    let r2 ← expectRow c2 i
    let r3 ← expectRow c3 i
    let tail ← attachCoords c2 c3 (i + 1) rest
    .ok (⟨d.value_hash, d.value, d.embedding, d.source_table,
      d.source_column, d.usage_count, r2, r3⟩ :: tail)

/-- `run_umap(data)`: stack the embeddings into a matrix, run the seeded
UMAP reducer for 2 and for 3 components (`proj` is the opaque
`UMAP(n_components=k, **UMAP_PARAMS).fit_transform`), and attach row `i`
of each output to entry `i`. -/
def run_umap (proj : List (List Q) → Nat → List (List Q))
    (data : List Entry) : Except String (List EntryC) :=
  let M := data.map (fun d => d.embedding)
  if uniformRows M then attachCoords (proj M 2) (proj M 3) 0 data
  else .error "ValueError: input array dimensions do not match"

/-- Element `i` of a coordinate row; `IndexError` past the end. -/
def getCoord (v : List Q) (i : Nat) : Except String Q :=
  match v.get? i with
  | some q => .ok q
  | none => .error "IndexError"

/-- The `UPDATE embedding_cache SET ... WHERE value_hash = %s` statement. -/
def sqlUpdateByHash (h : String) (x2 y2 x3 y3 z3 : Q) (s : Store) : Store :=
  s.map (fun r =>
    if r.value_hash = h then
      { r with umap_x_2d := some x2, umap_y_2d := some y2,
               umap_x_3d := some x3, umap_y_3d := some y3,
               umap_z_3d := some z3 }
    else r)

/-- `update_database(conn, data)`: one `UPDATE` per entry keyed by
`value_hash`, reading `d['umap_2d'][0]`, `d['umap_2d'][1]`,
`d['umap_3d'][0..2]`; a single commit at the end of the loop. -/
def update_database : Store → List EntryC → Except String Store
  | s, [] => .ok s
  | s, d :: rest => do
    let x2 ← getCoord d.umap_2d 0
    let y2 ← getCoord d.umap_2d 1
    let x3 ← getCoord d.umap_3d 0
    let y3 ← getCoord d.umap_3d 1
    let z3 ← getCoord d.umap_3d 2
    update_database (sqlUpdateByHash d.value_hash x2 y2 x3 y3 z3 s) rest

/-- `verify_update(conn)`: `COUNT(*) WHERE umap_x_2d IS NOT NULL`. -/
def verify_update (s : Store) : Nat :=
  (s.filter (fun r => r.umap_x_2d ≠ none)).length

/-- One line of `embeddings_2d.tsv`:
`f"{d['umap_2d'][0]:.6f}\t{d['umap_2d'][1]:.6f}\n"`. -/
def line2 (d : EntryC) : Except String String := do
  let a ← getCoord d.umap_2d 0
  let b ← getCoord d.umap_2d 1
  .ok (fmtFixed 6 a ++ "\t" ++ fmtFixed 6 b ++ "\n")

/-- One line of `embeddings_3d.tsv`. -/
def line3 (d : EntryC) : Except String String := do
  let a ← getCoord d.umap_3d 0
  let b ← getCoord d.umap_3d 1
  let c ← getCoord d.umap_3d 2
  .ok (fmtFixed 6 a ++ "\t" ++ fmtFixed 6 b ++ "\t" ++ fmtFixed 6 c ++ "\n")

/-- The header line of `metadata.tsv`. -/
def metaHeader : String := "value\tsource_table\tsource_column\tusage_count\n"

/-- One data line of `metadata.tsv`: only `value` is passed through the
tab/newline replacement; `source_table` and `source_column` are written
as stored. -/
def metaLine (d : EntryC) : String :=
  sanitize d.value ++ "\t" ++ d.source_table ++ "\t" ++ d.source_column ++
    "\t" ++ pyStrNat d.usage_count ++ "\n"

/-- Contents of the three exported files. -/
structure Artifacts where
  embeddings2d : String
  embeddings3d : String
  metadata : String
deriving DecidableEq

/-- `export_tsv(data)`: write the 2D file, the 3D file, and the metadata
file (header plus one line per entry, in `data` order). -/
def export_tsv (data : List EntryC) : Except String Artifacts := do
  let l2 ← eachOk line2 data
  let l3 ← eachOk line3 data
  .ok ⟨joinStr l2, joinStr l3,
    metaHeader ++ joinStr (data.map metaLine)⟩

/-- `add_umap_columns(conn)`: look up which of the five coordinate
columns exist, then `ALTER TABLE ... ADD COLUMN IF NOT EXISTS` the 2D
pair when `umap_x_2d` is missing and the 3D triple when `umap_x_3d` is
missing. -/
def add_umap_columns (schema : Finset String) : Finset String :=
  let existing := schema.filter (fun c => c ∈ umapColumns)
  let toAdd :=
    (if "umap_x_2d" ∉ existing then ["umap_x_2d", "umap_y_2d"] else []) ++
      (if "umap_x_3d" ∉ existing then ["umap_x_3d", "umap_y_3d", "umap_z_3d"]
       else [])
  toAdd.foldl (fun sch c => insert c sch) schema

/-- `main()` of `umap-reduce.py` after the schema step: fetch, reduce,
update the database, count the updated rows, export the TSV artifacts. -/
def pipeline (s : Store) (proj : List (List Q) → Nat → List (List Q)) :
    Except String (Store × Artifacts) := do
  let data ← fetch_embeddings s
  let dataC ← run_umap proj data
  let t ← update_database s dataC
  let arts ← export_tsv dataC
  .ok (t, arts)

end Reduce

namespace UpdateDb

/-- `ensure_umap_columns(conn)` of
`src/visualization-pipeline/03_update_database.py`: query the columns
matching `LIKE 'umap_%'` once, then plainly `ADD COLUMN` each of the
five that was not in that snapshot (plain `ADD COLUMN` errors when the
column already exists in the table). -/
def ensure_umap_columns (schema : Finset String) : Except String (Finset String) :=
  let existing := schema.filter (fun c => strStartsWith c "umap_")
  umapColumns.foldlM
    (fun sch c =>
      if c ∈ existing then .ok sch
      else if c ∈ sch then .error "DuplicateColumn: column already exists"
      else .ok (insert c sch))
    schema

/-- The per-row loop of `update_umap_coordinates` in
`03_update_database.py`: each row update runs inside `try/except`, so a
failing update (or a failing index access) increments `failed` and the
loop continues with the next row.  `rf j = true` means the execute for
row `j` fails.  Returns the store and the `(updated, failed)` counters. -/
def updateRows (ids : List Int) (c2 : List (Q × Q)) (c3 : List (Q × Q × Q))
    (rf : Nat → Bool) :
    Populate.Store → Nat → Nat → List Nat → Populate.Store × Nat × Nat
  | s, upd, fl, [] => (s, upd, fl)
  | s, upd, fl, j :: rest =>
    match Populate.writeTuple ids c2 c3 j with
    | none => updateRows ids c2 c3 rf s upd (fl + 1) rest
    | some t =>
      if rf j then updateRows ids c2 c3 rf s upd (fl + 1) rest
      else updateRows ids c2 c3 rf (s.map (Populate.applyWrite t)) (upd + 1) fl rest

/-- `update_umap_coordinates(conn, metadata, umap_2d, umap_3d)`: iterate
`for idx in range(total)` with per-row exception handling; reports the
updated/failed counts instead of raising. -/
def update_umap_coordinates (s : Populate.Store) (ids : List Int)
    (c2 : List (Q × Q)) (c3 : List (Q × Q × Q)) (rf : Nat → Bool) :
    Populate.Store × Nat × Nat :=
  updateRows ids c2 c3 rf s 0 0 (List.range ids.length)

end UpdateDb

namespace Extract

/-- One row of `embedding_cache` as selected by
`src/visualization-pipeline/01_extract_embeddings.py`. -/
structure SourceRow where
  id : Int
  value : String
  value_hash : String
  embedding : Option String
  source_table : String
  source_column : String
  usage_count : Nat
  created_at : String
deriving DecidableEq

/-- Python `s.strip('[]')`: remove leading and trailing bracket
characters. -/
def stripBrackets (s : String) : String :=
  let l := s.data.dropWhile (fun c => c = '[' ∨ c = ']')
  ⟨(l.reverse.dropWhile (fun c => c = '[' ∨ c = ']')).reverse⟩

/-- The vector decoding of `extract_embeddings`:
`[float(x) for x in vector_str.strip('[]').split(',')]`. -/
def parseVector01 (s : String) : Option (List Q) :=
  eachSome (fun g => pyFloat ⟨g⟩) (splitOnChar ',' (stripBrackets s).data)

/-- One metadata record produced by `extract_embeddings`. -/
structure Meta where
  id : Int
  label : String
  value_hash : String
  source_table : String
  source_column : String
  usage_count : Nat
  created_at : String
deriving DecidableEq

/-- `extract_embeddings(database_url, dimension)`:
`WHERE embedding_small IS NOT NULL ORDER BY id`, then decode every
vector in order with no per-row exception handling — a malformed vector
aborts the whole extraction. -/
def extract_embeddings (s : List SourceRow) :
    Except String (List (List Q) × List Meta) := do
  let rows := List.insertionSort (fun a b => a.id ≤ b.id)
    (s.filter (fun r => r.embedding ≠ none))
  let pairs ← eachOk (fun r =>
    match r.embedding with
    | none => (.error "TypeError: embedding is NULL" : Except String (List Q × Meta))
    | some es =>
      match parseVector01 es with
      | some v =>
        .ok (v, ⟨r.id, r.value, r.value_hash, r.source_table,
          r.source_column, r.usage_count, r.created_at⟩)
      | none => .error "ValueError: could not convert string to float") rows
  .ok (pairs.map Prod.fst, pairs.map Prod.snd)

/-- Exit code of `main()` in `01_extract_embeddings.py`: an exception or
an empty embedding set both end in `sys.exit(1)`. -/
def mainExitCode (s : List SourceRow) : Nat :=
  match extract_embeddings s with
  | .error _ => 1
  | .ok (es, _) => if es.isEmpty then 1 else 0

end Extract

instance : IsTotal Populate.Record (fun a b => a.id ≤ b.id) :=
  ⟨fun a b => le_total a.id b.id⟩

instance : IsTrans Populate.Record (fun a b => a.id ≤ b.id) :=
  ⟨fun _ _ _ h1 h2 => le_trans h1 h2⟩

namespace Reduce

/-- The five coordinate values one `UPDATE` of `update_database` binds. -/
structure CoordVals where
  x2 : Q
  y2 : Q
  x3 : Q
  y3 : Q
  z3 : Q
deriving DecidableEq

/-- The element accesses `d['umap_2d'][0]`, `d['umap_2d'][1]`,
`d['umap_3d'][0..2]` performed for one entry; `none` when one of them
would raise `IndexError`. -/
def entryVals (d : EntryC) : Option CoordVals := do
  let x2 ← d.umap_2d.get? 0
  let y2 ← d.umap_2d.get? 1
  let x3 ← d.umap_3d.get? 0
  let y3 ← d.umap_3d.get? 1
  let z3 ← d.umap_3d.get? 2
  some ⟨x2, y2, x3, y3, z3⟩

/-- The row assignment of the `UPDATE ... WHERE value_hash` statement. -/
def setCoordsR (v : CoordVals) (r : Row) : Row :=
  { r with umap_x_2d := some v.x2, umap_y_2d := some v.y2,
           umap_x_3d := some v.x3, umap_y_3d := some v.y3,
           umap_z_3d := some v.z3 }

/-- Effect of one entry's `UPDATE` on one stored row. -/
def rowApply (d : EntryC) (r : Row) : Row :=
  match entryVals d with
  | some v => if r.value_hash = d.value_hash then setCoordsR v r else r
  | none => r

/-- All updates of `update_database` folded over one stored row. -/
def rowUpdR (ds : List EntryC) (r : Row) : Row :=
  ds.foldl (fun r d => rowApply d r) r

/-- The metadata line the specification describes: every text field
(`value`, `source_table`, `source_column`) sanitized.  This definition
follows the spec wording and is compared against `metaLine`, which
follows the source. -/
def metaLineClaimed (d : EntryC) : String :=
  sanitize d.value ++ "\t" ++ sanitize d.source_table ++ "\t" ++
    sanitize d.source_column ++ "\t" ++ pyStrNat d.usage_count ++ "\n"

end Reduce

namespace UpdateDb

/-- The write tuples the per-row writer actually applies: rows whose
tuple construction and execute both succeed. -/
def okTuples (ids : List Int) (c2 : List (Q × Q)) (c3 : List (Q × Q × Q))
    (rf : Nat → Bool) (js : List Nat) : List Populate.WriteRow :=
  js.filterMap (fun j =>
    match Populate.writeTuple ids c2 c3 j with
    | none => none
    | some t => if rf j then none else some t)

end UpdateDb

/-! ## Concrete inputs used by the witness and counterexample theorems -/

/-- A one-row store for the `umap-reduce.py` pipeline witnesses. -/
def w1row : Reduce.Row :=
  ⟨"h1", "alpha", some "[1.0, 2.0]", "tbl", "col", 3,
    none, none, none, none, none⟩

/-- A concrete deterministic stand-in for the seeded UMAP projector. -/
def w1proj : List (List Q) → Nat → List (List Q) :=
  fun m k => m.map (fun _ => if k = 2 then [qofNat 0, qofNat 0] else [qofNat 0, qofNat 0, qofNat 0])

/-- Result of the first pipeline run on the witness store. -/
def w1res : Except String (Reduce.Store × Reduce.Artifacts) :=
  Reduce.pipeline [w1row] w1proj

/-- Store after the first witness run. -/
def w1t : Reduce.Store :=
  match w1res with
  | .ok (t, _) => t
  | .error _ => []

/-- Artifacts of the first witness run. -/
def w1a : Reduce.Artifacts :=
  match w1res with
  | .ok (_, a) => a
  | .error _ => ⟨"", "", ""⟩

/-- A pending record for the `populate-umap-coordinates.py` witnesses. -/
def w1prec : Populate.Record :=
  ⟨1, "a", some [qofNat 1], none, none, none, none, none⟩

/-- Concrete 2D projector for the populate witnesses. -/
def w1pp2 : List (List Q) → List (Q × Q) :=
  fun embs => embs.map (fun _ => (qofNat 0, qofNat 0))

/-- Concrete 3D projector for the populate witnesses. -/
def w1pp3 : List (List Q) → List (Q × Q × Q) :=
  fun embs => embs.map (fun _ => (qofNat 0, qofNat 0, qofNat 0))

/-- Result of the first populate run on the witness store. -/
def w1pres : Nat × Populate.Store :=
  Populate.mainRun [w1prec] (fun _ => false) w1pp2 w1pp3

/-- Store after the first populate witness run. -/
def w1pt : Populate.Store := w1pres.2

/-- A record in partial coordinate state: 2D present, 3D absent. -/
def c2skiprec : Populate.Record :=
  ⟨7, "p", some [qofNat 1], some (qofNat 1), some (qofNat 2), none, none, none⟩

/-- A metadata entry whose `source_table` contains an embedded newline. -/
def c9entry : Reduce.EntryC :=
  ⟨"h", "v", [qofNat 1], "a\nb", "c", 1, [qofNat 0, qofNat 0], [qofNat 0, qofNat 0, qofNat 0]⟩

/-- Export result on the newline-carrying entry. -/
def c9arts : Reduce.Artifacts :=
  match Reduce.export_tsv [c9entry] with
  | .ok a => a
  | .error _ => ⟨"", "", ""⟩

/-- A well-formed source row for the extraction counterexample. -/
def c4good : Reduce.Row :=
  ⟨"a1", "good", some "[1.0, 2.0]", "t", "c", 1, none, none, none, none, none⟩

/-- A source row whose stored vector text is truncated. -/
def c4bad : Reduce.Row :=
  ⟨"b2", "bad", some "[1.0, 2.0", "t", "c", 1, none, none, none, none, none⟩

/-- Whether an `Except` computation succeeded. -/
def exceptIsOk {β : Type} : Except String β → Bool
  | .ok _ => true
  | .error _ => false

/-- A stored row with a NULL vector (nothing pending for extraction). -/
def w8row : Reduce.Row :=
  ⟨"h8", "novec", none, "t", "c", 0, none, none, none, none, none⟩

/-- A clean metadata entry for the export witnesses. -/
def w9entry : Reduce.EntryC :=
  ⟨"h9", "v", [qofNat 1], "t", "c", 2, [qofNat 0, qofNat 0],
    [qofNat 0, qofNat 0, qofNat 0]⟩

/-- Export result on the clean entry. -/
def w9arts : Reduce.Artifacts :=
  match Reduce.export_tsv [w9entry] with
  | .ok a => a
  | .error _ => ⟨"", "", ""⟩

/-- A source row with a malformed vector for the extraction witnesses. -/
def x4row : Extract.SourceRow :=
  ⟨5, "v", "h5", some "[1.0,", "t", "c", 1, "now"⟩

/-- A decoded entry for the projection-alignment witness. -/
def w6entry : Reduce.Entry := ⟨"h6", "v", [qofNat 1], "t", "c", 1⟩

/-- Result of the batched writer on the one-record witness store. -/
def w6res : Populate.Store × Except String Nat :=
  Populate.update_umap_coordinates [w1prec] [1] [(qofNat 0, qofNat 0)]
    [(qofNat 0, qofNat 0, qofNat 0)] (fun _ => false)

/-! ## Helper lemmas about the effectful traversals -/

theorem eachSome_cons_inv {α β : Type} (f : α → Option β) {a : α} {l : List α}
    {r : List β} (h : eachSome f (a :: l) = some r) :
    ∃ b rs, f a = some b ∧ eachSome f l = some rs ∧ r = b :: rs := by
  cases hfa : f a with
  | none => rw [eachSome, hfa] at h; simp at h
  | some b =>
    cases hl : eachSome f l with
    | none => rw [eachSome, hfa, hl] at h; simp at h
    | some rs =>
      rw [eachSome, hfa, hl] at h
      have h2 : some (b :: rs) = some r := h
      injection h2 with h3
      exact ⟨b, rs, rfl, rfl, h3.symm⟩

theorem eachSome_append {α β : Type} (f : α → Option β) :
    ∀ {l1 : List α} {r1 : List β}, eachSome f l1 = some r1 →
    ∀ {l2 : List α} {r2 : List β}, eachSome f l2 = some r2 →
    eachSome f (l1 ++ l2) = some (r1 ++ r2) := by
  intro l1
  induction l1 with
  | nil =>
    intro r1 h1 l2 r2 h2
    rw [eachSome] at h1
    simp only [Option.some.injEq] at h1
    subst h1
    simpa using h2
  | cons a l ih =>
    intro r1 h1 l2 r2 h2
    obtain ⟨b, rs, hfa, hl, hr⟩ := eachSome_cons_inv f h1
    subst hr
    rw [List.cons_append, eachSome, hfa, ih hl h2]
    rfl

theorem eachSome_length {α β : Type} (f : α → Option β) :
    ∀ {l : List α} {r : List β}, eachSome f l = some r → r.length = l.length := by
  intro l
  induction l with
  | nil =>
    intro r h
    rw [eachSome] at h
    simp only [Option.some.injEq] at h
    simp [← h]
  | cons a l ih =>
    intro r h
    obtain ⟨b, rs, _, hl, hr⟩ := eachSome_cons_inv f h
    subst hr
    simp [ih hl]

theorem eachSome_get {α β : Type} (f : α → Option β) :
    ∀ {l : List α} {r : List β}, eachSome f l = some r →
    ∀ j a, l.get? j = some a → r.get? j = f a := by
  intro l
  induction l with
  | nil => intro r _ j a hj; simp at hj
  | cons x l ih =>
    intro r h j a hj
    obtain ⟨b, rs, hfx, hl, hr⟩ := eachSome_cons_inv f h
    subst hr
    cases j with
    | zero =>
      simp only [List.get?_cons_zero, Option.some.injEq] at hj
      subst hj
      simp [hfx]
    | succ j =>
      simp only [List.get?_cons_succ] at hj ⊢
      exact ih hl j a hj

theorem eachOk_cons_inv {α β : Type} (f : α → Except String β) {a : α}
    {l : List α} {r : List β} (h : eachOk f (a :: l) = .ok r) :
    ∃ b rs, f a = .ok b ∧ eachOk f l = .ok rs ∧ r = b :: rs := by
  cases hfa : f a with
  | error e => rw [eachOk, hfa] at h; exact Except.noConfusion h
  | ok b =>
    cases hl : eachOk f l with
    | error e => rw [eachOk, hfa, hl] at h; exact Except.noConfusion h
    | ok rs =>
      rw [eachOk, hfa, hl] at h
      have h2 : (Except.ok (b :: rs) : Except String (List β)) = .ok r := h
      injection h2 with h3
      exact ⟨b, rs, rfl, rfl, h3.symm⟩

theorem eachOk_ok_of_forall {α β : Type} (f : α → Except String β) :
    ∀ {l : List α}, (∀ a ∈ l, ∃ b, f a = .ok b) →
    ∃ r, eachOk f l = .ok r := by
  intro l
  induction l with
  | nil => intro _; exact ⟨[], rfl⟩
  | cons a l ih =>
    intro h
    obtain ⟨b, hb⟩ := h a (by simp)
    obtain ⟨rs, hrs⟩ := ih (fun x hx => h x (by simp [hx]))
    refine ⟨b :: rs, ?_⟩
    rw [eachOk, hb, hrs]
    rfl

theorem eachOk_error_of_mem {α β : Type} (f : α → Except String β) :
    ∀ {l : List α} {a : α}, a ∈ l → (∀ b, f a ≠ .ok b) →
    ∃ e, eachOk f l = .error e := by
  intro l
  induction l with
  | nil => intro a ha; simp at ha
  | cons x l ih =>
    intro a ha hbad
    rcases List.mem_cons.mp ha with h | h
    · subst h
      cases hfa : f a with
      | error e => exact ⟨e, by rw [eachOk, hfa]; rfl⟩
      | ok b => exact absurd hfa (hbad b)
    · cases hfx : f x with
      | error e => exact ⟨e, by rw [eachOk, hfx]; rfl⟩
      | ok b =>
        obtain ⟨e, he⟩ := ih h hbad
        refine ⟨e, ?_⟩
        rw [eachOk, hfx, he]
        rfl

theorem eachOk_forall_ok {α β : Type} (f : α → Except String β) :
    ∀ {l : List α} {r : List β}, eachOk f l = .ok r →
    ∀ a ∈ l, ∃ b, f a = .ok b := by
  intro l
  induction l with
  | nil => intro r _ a ha; simp at ha
  | cons x l ih =>
    intro r h a ha
    obtain ⟨b, rs, hfx, hl, _⟩ := eachOk_cons_inv f h
    rcases List.mem_cons.mp ha with h1 | h1
    · exact ⟨b, h1 ▸ hfx⟩
    · exact ih hl a h1

theorem eachOk_mem_exists {α β : Type} (f : α → Except String β) :
    ∀ {l : List α} {r : List β}, eachOk f l = .ok r →
    ∀ a ∈ l, ∃ b ∈ r, f a = .ok b := by
  intro l
  induction l with
  | nil => intro r _ a ha; simp at ha
  | cons x l ih =>
    intro r h a ha
    obtain ⟨b, rs, hfx, hl, hr⟩ := eachOk_cons_inv f h
    subst hr
    rcases List.mem_cons.mp ha with h1 | h1
    · exact ⟨b, by simp, h1 ▸ hfx⟩
    · obtain ⟨c, hc, hfc⟩ := ih hl a h1
      exact ⟨c, by simp [hc], hfc⟩

/-! ## Lemmas about the Populate writer -/

theorem eachSome_isSome_of_forall {α β : Type} (f : α → Option β) :
    ∀ {l : List α}, (∀ a ∈ l, (f a).isSome) → (eachSome f l).isSome := by
  intro l
  induction l with
  | nil => intro _; rw [eachSome]; rfl
  | cons a l ih =>
    intro h
    obtain ⟨b, hb⟩ := Option.isSome_iff_exists.mp (h a (by simp))
    obtain ⟨rs, hrs⟩ := Option.isSome_iff_exists.mp (ih (fun x hx => h x (by simp [hx])))
    rw [eachSome, hb, hrs]
    rfl

theorem chunkGo_length (k : Nat) (hk : 0 < k) :
    ∀ (fuel : Nat) (l : List α), l.length ≤ fuel →
    (chunkGo k fuel l).length = (l.length + k - 1) / k := by
  intro fuel
  induction fuel with
  | zero =>
    intro l hl
    have hnil : l = [] := List.eq_nil_of_length_eq_zero (by omega)
    subst hnil
    simp only [chunkGo, List.length_nil]
    rw [Nat.div_eq_of_lt (by omega)]
  | succ fuel ih =>
    intro l hl
    cases l with
    | nil =>
      rw [chunkGo_nil]
      simp only [List.length_nil]
      rw [Nat.div_eq_of_lt (by omega)]
    | cons a l =>
      rw [chunkGo, if_neg (by omega)]
      simp only [List.length_cons, List.length_drop] at hl ⊢
      rw [ih _ (by simp only [List.length_drop, List.length_cons]; omega)]
      simp only [List.length_drop, List.length_cons]
      rcases le_or_lt (l.length + 1) k with hle | hlt
      · have h1 : l.length + 1 - k = 0 := by omega
        have e2 : l.length + 1 + k - 1 = l.length + k := by omega
        rw [h1, e2, Nat.div_eq_of_lt (by omega : 0 + k - 1 < k),
          Nat.add_div_right _ hk, Nat.div_eq_of_lt (by omega : l.length < k)]
      · have e1 : l.length + 1 - k + k - 1 = l.length := by omega
        have e2 : l.length + 1 + k - 1 = l.length + k := by omega
        rw [e1, e2, Nat.add_div_right _ hk]

theorem chunkList_length (k : Nat) (hk : 0 < k) (l : List α) :
    (chunkList k l).length = (l.length + k - 1) / k :=
  chunkGo_length k hk l.length l le_rfl

theorem chunkGo_take_flatten (k : Nat) (hk : 0 < k) :
    ∀ (i fuel : Nat) (l : List α), l.length ≤ fuel →
    ((chunkGo k fuel l).take i).flatten = l.take (i * k) := by
  intro i
  induction i with
  | zero => intro fuel l _; simp
  | succ i ih =>
    intro fuel l hl
    cases l with
    | nil => rw [chunkGo_nil]; simp
    | cons a l =>
      cases fuel with
      | zero => simp at hl
      | succ fuel =>
        rw [chunkGo, if_neg (by omega), List.take_succ_cons, List.flatten_cons,
          ih fuel _ (by simp only [List.length_drop, List.length_cons] at hl ⊢; omega)]
        rw [show (i + 1) * k = k + i * k by ring, List.take_add]

theorem chunkList_take_flatten (k : Nat) (hk : 0 < k) (i : Nat) (l : List α) :
    ((chunkList k l).take i).flatten = l.take (i * k) :=
  chunkGo_take_flatten k hk i l.length l le_rfl

namespace Populate

theorem setCoords_id (t : WriteRow) (r : Record) : (setCoords t r).id = r.id := rfl

theorem setCoords_idem (t t0 : WriteRow) (r : Record) :
    setCoords t (setCoords t0 r) = setCoords t r := rfl

theorem applyWrite_id (t : WriteRow) (r : Record) : (applyWrite t r).id = r.id := by
  unfold applyWrite
  split
  · rfl
  · rfl

theorem rowUpd_nil (r : Record) : rowUpd [] r = r := rfl

theorem rowUpd_cons (t : WriteRow) (ts : List WriteRow) (r : Record) :
    rowUpd (t :: ts) r = rowUpd ts (applyWrite t r) := rfl

theorem rowUpd_append (ts1 ts2 : List WriteRow) (r : Record) :
    rowUpd (ts1 ++ ts2) r = rowUpd ts2 (rowUpd ts1 r) := by
  simp [rowUpd, List.foldl_append]

theorem rowUpd_id (ts : List WriteRow) (r : Record) : (rowUpd ts r).id = r.id := by
  induction ts generalizing r with
  | nil => rfl
  | cons t ts ih => rw [rowUpd_cons, ih, applyWrite_id]

theorem applyBatch_eq_map (ts : List WriteRow) (s : Store) :
    applyBatch s ts = s.map (rowUpd ts) := by
  induction ts generalizing s with
  | nil =>
    simp only [applyBatch, List.foldl_nil]
    rw [show (rowUpd [] : Record → Record) = id from rfl, List.map_id]
  | cons t ts ih =>
    simp only [applyBatch, List.foldl_cons] at ih ⊢
    rw [ih (s.map (applyWrite t)), List.map_map]
    rfl

theorem updateGo_nil (ids : List Int) (c2 : List (Q × Q)) (c3 : List (Q × Q × Q))
    (cf : Nat → Bool) (s : Store) (total k : Nat) :
    updateGo ids c2 c3 cf s total k [] = (s, .ok total) := rfl

theorem updateGo_cons_none {ids : List Int} {c2 : List (Q × Q)}
    {c3 : List (Q × Q × Q)} {js : List Nat} (cf : Nat → Bool) (s : Store)
    (total k : Nat) (rest : List (List Nat))
    (hjs : eachSome (writeTuple ids c2 c3) js = none) :
    updateGo ids c2 c3 cf s total k (js :: rest) = (s, .error "IndexError") := by
  rw [updateGo, hjs]

theorem updateGo_cons_some {ids : List Int} {c2 : List (Q × Q)}
    {c3 : List (Q × Q × Q)} {js : List Nat} {ts1 : List WriteRow}
    (cf : Nat → Bool) (s : Store) (total k : Nat) (rest : List (List Nat))
    (hjs : eachSome (writeTuple ids c2 c3) js = some ts1) :
    updateGo ids c2 c3 cf s total k (js :: rest) =
      if cf k then (s, .error "WriteError: batch commit failed")
      else updateGo ids c2 c3 cf (applyBatch s ts1) (total + ts1.length) (k + 1) rest := by
  rw [updateGo, hjs]

theorem updateGo_ok_char (ids : List Int) (c2 : List (Q × Q))
    (c3 : List (Q × Q × Q)) (cf : Nat → Bool) :
    ∀ (chunks : List (List Nat)) (s : Store) (total k : Nat) (t : Store) (m : Nat),
    updateGo ids c2 c3 cf s total k chunks = (t, .ok m) →
    ∃ ts, eachSome (writeTuple ids c2 c3) chunks.flatten = some ts ∧
      t = s.map (rowUpd ts) ∧ m = total + ts.length := by
  intro chunks
  induction chunks with
  | nil =>
    intro s total k t m h
    rw [updateGo_nil] at h
    injection h with h1 h2
    injection h2 with h3
    refine ⟨[], rfl, ?_, by simpa using h3.symm⟩
    rw [← h1, show (rowUpd [] : Record → Record) = id from rfl, List.map_id]
  | cons js rest ih =>
    intro s total k t m h
    cases hjs : eachSome (writeTuple ids c2 c3) js with
    | none =>
      rw [updateGo_cons_none cf s total k rest hjs] at h
      injection h with h1 h2
      exact Except.noConfusion h2
    | some ts1 =>
      rw [updateGo_cons_some cf s total k rest hjs] at h
      by_cases hcf : cf k
      · rw [if_pos hcf] at h
        injection h with h1 h2
        exact Except.noConfusion h2
      · rw [if_neg hcf] at h
        obtain ⟨ts2, hts2, ht, hm⟩ := ih _ _ _ _ _ h
        refine ⟨ts1 ++ ts2, ?_, ?_, ?_⟩
        · rw [List.flatten_cons]
          exact eachSome_append _ hjs hts2
        · rw [ht, applyBatch_eq_map, List.map_map]
          apply List.map_congr_left
          intro r _
          exact (rowUpd_append ts1 ts2 r).symm
        · simp only [List.length_append]
          omega

theorem update_ok_char {s : Store} {ids : List Int} {c2 : List (Q × Q)}
    {c3 : List (Q × Q × Q)} {cf : Nat → Bool} {t : Store} {m : Nat}
    (h : update_umap_coordinates s ids c2 c3 cf = (t, .ok m)) :
    ∃ ts, eachSome (writeTuple ids c2 c3) (List.range ids.length) = some ts ∧
      t = s.map (rowUpd ts) ∧ m = ts.length := by
  unfold update_umap_coordinates at h
  obtain ⟨ts, hts, ht, hm⟩ := updateGo_ok_char ids c2 c3 cf _ s 0 0 t m h
  rw [chunkList_flatten BATCH_SIZE (by norm_num [BATCH_SIZE])] at hts
  exact ⟨ts, hts, ht, by omega⟩

theorem updateGo_err_char (ids : List Int) (c2 : List (Q × Q))
    (c3 : List (Q × Q × Q)) (cf : Nat → Bool) :
    ∀ (chunks : List (List Nat)) (i : Nat) (s : Store) (total k : Nat),
    (∀ js ∈ chunks, (eachSome (writeTuple ids c2 c3) js).isSome) →
    i < chunks.length →
    (∀ j, j < i → cf (k + j) = false) → cf (k + i) = true →
    ∃ ts, eachSome (writeTuple ids c2 c3) (chunks.take i).flatten = some ts ∧
      updateGo ids c2 c3 cf s total k chunks =
        (s.map (rowUpd ts), .error "WriteError: batch commit failed") := by
  intro chunks
  induction chunks with
  | nil =>
    intro i s total k _ hi
    simp at hi
  | cons js rest ih =>
    intro i s total k hsome hi hprev hfail
    obtain ⟨ts1, hts1⟩ := Option.isSome_iff_exists.mp (hsome js (by simp))
    cases i with
    | zero =>
      refine ⟨[], rfl, ?_⟩
      rw [updateGo_cons_some cf s total k rest hts1,
        if_pos (by simpa using hfail),
        show (rowUpd [] : Record → Record) = id from rfl, List.map_id]
    | succ i =>
      have hcfk : cf k = false := by simpa using hprev 0 (Nat.succ_pos i)
      rw [updateGo_cons_some cf s total k rest hts1, if_neg (by simp [hcfk])]
      obtain ⟨ts2, hts2, heq⟩ := ih i (applyBatch s ts1) (total + ts1.length) (k + 1)
        (fun x hx => hsome x (by simp [hx]))
        (by simpa using hi)
        (fun j hj => by
          have h5 := hprev (j + 1) (by omega)
          have e : k + 1 + j = k + (j + 1) := by omega
          rw [e]
          exact h5)
        (by
          have e : k + 1 + i = k + (i + 1) := by omega
          rw [e]
          exact hfail)
      refine ⟨ts1 ++ ts2, ?_, ?_⟩
      · rw [List.take_succ_cons, List.flatten_cons]
        exact eachSome_append _ hts1 hts2
      · rw [heq, applyBatch_eq_map, List.map_map]
        rw [show List.map (rowUpd ts2 ∘ rowUpd ts1) s = List.map (rowUpd (ts1 ++ ts2)) s from
          List.map_congr_left (fun r _ => (rowUpd_append ts1 ts2 r).symm)]

end Populate

namespace Populate

theorem writeTuple_some_inv {ids : List Int} {c2 : List (Q × Q)}
    {c3 : List (Q × Q × Q)} {j : Nat} {t : WriteRow}
    (h : writeTuple ids c2 c3 j = some t) :
    ∃ a b i0, c2.get? j = some a ∧ c3.get? j = some b ∧ ids.get? j = some i0 ∧
      t = ⟨a.1, a.2, b.1, b.2.1, b.2.2, i0⟩ := by
  unfold writeTuple at h
  cases ha : c2.get? j with
  | none => rw [ha] at h; exact Option.noConfusion h
  | some a =>
    rw [ha] at h
    cases hb : c3.get? j with
    | none => rw [hb] at h; exact Option.noConfusion h
    | some b =>
      rw [hb] at h
      cases hi : ids.get? j with
      | none => rw [hi] at h; exact Option.noConfusion h
      | some i0 =>
        rw [hi] at h
        have h2 : some (⟨a.1, a.2, b.1, b.2.1, b.2.2, i0⟩ : WriteRow) = some t := h
        injection h2 with h3
        exact ⟨a, b, i0, rfl, rfl, rfl, h3.symm⟩

theorem writeTuple_isSome {ids : List Int} {c2 : List (Q × Q)}
    {c3 : List (Q × Q × Q)} {j : Nat} (h2 : j < c2.length) (h3 : j < c3.length)
    (hj : j < ids.length) : (writeTuple ids c2 c3 j).isSome := by
  unfold writeTuple
  rw [List.get?_eq_get h2, List.get?_eq_get h3, List.get?_eq_get hj]
  rfl

theorem rowUpd_fixed (ts : List WriteRow) (r : Record)
    (h : ∀ t ∈ ts, applyWrite t r = r) : rowUpd ts r = r := by
  induction ts with
  | nil => rfl
  | cons t ts ih =>
    rw [rowUpd_cons, h t (by simp)]
    exact ih (fun u hu => h u (by simp [hu]))

theorem rowUpd_unique (ts : List WriteRow) (r : Record) (t0 : WriteRow)
    (h0 : t0 ∈ ts) (hid : r.id = t0.rid)
    (huniq : ∀ t ∈ ts, r.id = t.rid → t = t0) :
    rowUpd ts r = setCoords t0 r := by
  induction ts with
  | nil => cases h0
  | cons t ts ih =>
    rw [rowUpd_cons]
    by_cases hm : r.id = t.rid
    · have ht0 : t = t0 := huniq t (by simp) hm
      subst ht0
      rw [applyWrite, if_pos hm]
      apply rowUpd_fixed
      intro u hu
      rw [applyWrite]
      by_cases hm2 : (setCoords t r).id = u.rid
      · have hru : r.id = u.rid := by rw [← setCoords_id t r]; exact hm2
        have hut : u = t := huniq u (by simp [hu]) hru
        subst hut
        rw [if_pos hm2]
        exact setCoords_idem u u r
      · rw [if_neg hm2]
    · rw [applyWrite, if_neg hm]
      rcases List.mem_cons.mp h0 with he | he
      · exact absurd (he ▸ hid) hm
      · exact ih he (fun u hu hru => huniq u (by simp [hu]) hru)

theorem applyWrite_x2d_isSome {t : WriteRow} {r : Record}
    (h : r.umap_x_2d.isSome) : (applyWrite t r).umap_x_2d.isSome := by
  rw [applyWrite]
  split
  · rfl
  · exact h

theorem rowUpd_x2d_isSome (ts : List WriteRow) (r : Record)
    (h : r.umap_x_2d.isSome) : (rowUpd ts r).umap_x_2d.isSome := by
  induction ts generalizing r with
  | nil => exact h
  | cons t ts ih => exact ih _ (applyWrite_x2d_isSome h)

theorem rowUpd_x2d_isSome_of_match (ts : List WriteRow) (r : Record)
    (h : ∃ t ∈ ts, r.id = t.rid) : (rowUpd ts r).umap_x_2d.isSome := by
  induction ts generalizing r with
  | nil => obtain ⟨t, ht, _⟩ := h; cases ht
  | cons t ts ih =>
    obtain ⟨u, hu, hru⟩ := h
    rw [rowUpd_cons]
    by_cases hm : r.id = t.rid
    · rw [applyWrite, if_pos hm]
      exact rowUpd_x2d_isSome ts _ rfl
    · rw [applyWrite, if_neg hm]
      rcases List.mem_cons.mp hu with he | he
      · exact absurd (he ▸ hru) hm
      · exact ih r ⟨u, he, hru⟩

theorem fetch_ids_nil_iff (s : Store) :
    (fetch_embeddings s).1 = [] ↔ ∀ r ∈ s, r.umap_x_2d ≠ none := by
  unfold fetch_embeddings
  simp only [List.map_eq_nil_iff]
  constructor
  · intro h r hr hnone
    have hmem : r ∈ List.insertionSort (fun a b => a.id ≤ b.id)
        (s.filter (fun r => r.umap_x_2d = none)) := by
      rw [List.mem_insertionSort, List.mem_filter]
      exact ⟨hr, by simp [hnone]⟩
    rw [h] at hmem
    cases hmem
  · intro h
    rw [List.eq_nil_iff_forall_not_mem]
    intro r hmem
    rw [List.mem_insertionSort, List.mem_filter] at hmem
    exact h r hmem.1 (by simpa using hmem.2)

theorem fetch_id_mem {s : Store} {r : Record} (hr : r ∈ s)
    (hn : r.umap_x_2d = none) : r.id ∈ (fetch_embeddings s).1 := by
  unfold fetch_embeddings
  apply List.mem_map_of_mem
  rw [List.mem_insertionSort, List.mem_filter]
  exact ⟨hr, by simp [hn]⟩

theorem mainRun_nothing (s : Store) (cf : Nat → Bool)
    (p2 : List (List Q) → List (Q × Q)) (p3 : List (List Q) → List (Q × Q × Q))
    (h : ∀ r ∈ s, r.umap_x_2d ≠ none) : mainRun s cf p2 p3 = (0, s) := by
  unfold mainRun
  rw [if_pos]
  rw [List.isEmpty_iff]
  exact (fetch_ids_nil_iff s).mpr h

end Populate

namespace Populate

theorem mainRun_zero_allSome {s : Store} {cf : Nat → Bool}
    {p2 : List (List Q) → List (Q × Q)} {p3 : List (List Q) → List (Q × Q × Q)}
    {t : Store} (h : mainRun s cf p2 p3 = (0, t)) :
    ∀ r ∈ t, r.umap_x_2d ≠ none := by
  simp only [mainRun] at h
  split at h
  case isTrue hem =>
    injection h with h1 h2
    subst h2
    intro r hr hnone
    exact (fetch_ids_nil_iff s).mp (List.isEmpty_iff.mp hem) r hr hnone
  case isFalse hem =>
    split at h
    case h_1 =>
      injection h with h1 h2
      exact absurd h1 one_ne_zero
    case h_2 embs hembs =>
      split at h
      case h_1 t1 e hupd =>
        injection h with h1 h2
        exact absurd h1 one_ne_zero
      case h_2 t1 m hupd =>
        split at h
        case h_1 =>
          injection h with h1 h2
          exact absurd h1 one_ne_zero
        case h_2 =>
          injection h with h1 h2
          subst h2
          obtain ⟨ts, hts, ht, hm⟩ := update_ok_char hupd
          subst ht
          intro rr hrr hnone
          obtain ⟨r, hr, hrw⟩ := List.mem_map.mp hrr
          by_cases hx : r.umap_x_2d = none
          · have hmem : r.id ∈ (fetch_embeddings s).1 := fetch_id_mem hr hx
            obtain ⟨j, hj⟩ := List.mem_iff_get?.mp hmem
            have hjlt : j < (fetch_embeddings s).1.length := by
              by_contra hge
              rw [List.get?_eq_none.mpr (by omega)] at hj
              exact Option.noConfusion hj
            have hlen : ts.length = (fetch_embeddings s).1.length :=
              (eachSome_length _ hts).trans (List.length_range _)
            have hget : ts.get? j = writeTuple (fetch_embeddings s).1 (p2 embs) (p3 embs) j :=
              eachSome_get _ hts j j (by
                rw [List.get?_eq_getElem?, List.getElem?_range (by omega)])
            have hsome : ts.get? j ≠ none := by
              rw [ne_eq, List.get?_eq_none]
              omega
            obtain ⟨tj, htj⟩ := Option.ne_none_iff_exists.mp hsome
            rw [← htj] at hget
            obtain ⟨a, b, i0, _, _, hi0, htj2⟩ := writeTuple_some_inv hget.symm
            have hrid : r.id = tj.rid := by
              rw [hi0] at hj
              injection hj with hj2
              rw [htj2, hj2]
            have hmatch : (rowUpd ts r).umap_x_2d.isSome :=
              rowUpd_x2d_isSome_of_match ts r ⟨tj, List.get?_mem htj.symm, hrid⟩
            rw [hrw, hnone] at hmatch
            exact Bool.noConfusion hmatch
          · have hsome2 : (rowUpd ts r).umap_x_2d.isSome :=
              rowUpd_x2d_isSome ts r (Option.ne_none_iff_isSome.mp hx)
            rw [hrw, hnone] at hsome2
            exact Bool.noConfusion hsome2

end Populate

namespace UpdateDb

theorem updateRows_nil (ids : List Int) (c2 : List (Q × Q))
    (c3 : List (Q × Q × Q)) (rf : Nat → Bool) (s : Populate.Store)
    (upd fl : Nat) : updateRows ids c2 c3 rf s upd fl [] = (s, upd, fl) := rfl

theorem updateRows_cons_none {ids : List Int} {c2 : List (Q × Q)}
    {c3 : List (Q × Q × Q)} {j : Nat} (rf : Nat → Bool) (s : Populate.Store)
    (upd fl : Nat) (js : List Nat)
    (hwt : Populate.writeTuple ids c2 c3 j = none) :
    updateRows ids c2 c3 rf s upd fl (j :: js) =
      updateRows ids c2 c3 rf s upd (fl + 1) js := by
  rw [updateRows, hwt]

theorem updateRows_cons_some {ids : List Int} {c2 : List (Q × Q)}
    {c3 : List (Q × Q × Q)} {j : Nat} {t : Populate.WriteRow} (rf : Nat → Bool)
    (s : Populate.Store) (upd fl : Nat) (js : List Nat)
    (hwt : Populate.writeTuple ids c2 c3 j = some t) :
    updateRows ids c2 c3 rf s upd fl (j :: js) =
      if rf j then updateRows ids c2 c3 rf s upd (fl + 1) js
      else updateRows ids c2 c3 rf (s.map (Populate.applyWrite t)) (upd + 1) fl js := by
  rw [updateRows, hwt]

theorem updateRows_char (ids : List Int) (c2 : List (Q × Q))
    (c3 : List (Q × Q × Q)) (rf : Nat → Bool) :
    ∀ (js : List Nat) (s : Populate.Store) (upd fl : Nat),
    updateRows ids c2 c3 rf s upd fl js =
      (s.map (Populate.rowUpd (okTuples ids c2 c3 rf js)),
        upd + (okTuples ids c2 c3 rf js).length,
        fl + (js.length - (okTuples ids c2 c3 rf js).length)) := by
  intro js
  induction js with
  | nil =>
    intro s upd fl
    rw [updateRows_nil, okTuples]
    simp only [List.filterMap_nil, List.length_nil]
    rw [show (Populate.rowUpd [] : Populate.Record → Populate.Record) = id from rfl,
      List.map_id]
    simp
  | cons j js ih =>
    intro s upd fl
    have hlen : (okTuples ids c2 c3 rf js).length ≤ js.length :=
      List.length_filterMap_le _ _
    cases hwt : Populate.writeTuple ids c2 c3 j with
    | none =>
      rw [updateRows_cons_none rf s upd fl js hwt, ih]
      have hok : okTuples ids c2 c3 rf (j :: js) = okTuples ids c2 c3 rf js := by
        rw [okTuples, okTuples, List.filterMap_cons, hwt]
      rw [hok]
      refine congrArg _ (congrArg _ ?_)
      simp only [List.length_cons]
      omega
    | some t =>
      by_cases hrf : rf j
      · rw [updateRows_cons_some rf s upd fl js hwt, if_pos hrf, ih]
        have hok : okTuples ids c2 c3 rf (j :: js) = okTuples ids c2 c3 rf js := by
          rw [okTuples, okTuples, List.filterMap_cons, hwt]
          simp [hrf]
        rw [hok]
        refine congrArg _ (congrArg _ ?_)
        simp only [List.length_cons]
        omega
      · rw [updateRows_cons_some rf s upd fl js hwt, if_neg hrf, ih]
        have hok : okTuples ids c2 c3 rf (j :: js) = t :: okTuples ids c2 c3 rf js := by
          rw [okTuples, okTuples, List.filterMap_cons, hwt]
          simp [hrf]
        rw [hok]
        refine congrArg₂ _ ?_ (congrArg₂ _ ?_ ?_)
        · rw [List.map_map]
          apply List.map_congr_left
          intro r _
          rfl
        · simp only [List.length_cons]
          omega
        · simp only [List.length_cons]
          omega

/-- The per-row writer never raises: it returns counters with
`updated + failed = total`, and the store keeps exactly the writes of
the rows whose update succeeded. -/
theorem update_char (s : Populate.Store) (ids : List Int) (c2 : List (Q × Q))
    (c3 : List (Q × Q × Q)) (rf : Nat → Bool) :
    update_umap_coordinates s ids c2 c3 rf =
      (s.map (Populate.rowUpd (okTuples ids c2 c3 rf (List.range ids.length))),
        (okTuples ids c2 c3 rf (List.range ids.length)).length,
        ids.length - (okTuples ids c2 c3 rf (List.range ids.length)).length) := by
  unfold update_umap_coordinates
  rw [updateRows_char]
  simp [List.length_range]

end UpdateDb

theorem exceptBind_ok {α β : Type} (a : α) (f : α → Except String β) :
    (Except.ok a >>= f) = f a := rfl

theorem exceptBind_ne_error {α β : Type} {x : Except String α}
    {f : α → Except String β} {m : String} (hx : x ≠ .error m)
    (hf : ∀ a, f a ≠ .error m) : (x >>= f) ≠ .error m := by
  cases x with
  | error e =>
    intro h
    have h2 : (Except.error e : Except String β) = Except.error m :=
      Eq.trans (show (Except.error e : Except String β) = Except.error e >>= f from rfl) h
    injection h2 with h3
    exact hx (by rw [h3])
  | ok a => exact hf a

theorem eachOk_length {α β : Type} (f : α → Except String β) :
    ∀ {l : List α} {r : List β}, eachOk f l = .ok r → r.length = l.length := by
  intro l
  induction l with
  | nil =>
    intro r h
    rw [eachOk] at h
    injection h with h2
    simp [← h2]
  | cons a l ih =>
    intro r h
    obtain ⟨b, rs, _, hl, hr⟩ := eachOk_cons_inv f h
    subst hr
    simp [ih hl]

namespace Reduce

theorem setCoordsR_core (v : CoordVals) (r : Row) : (setCoordsR v r).core = r.core := rfl

theorem rowApply_core (d : EntryC) (r : Row) : (rowApply d r).core = r.core := by
  rw [rowApply]
  split
  · split
    · rfl
    · rfl
  · rfl

theorem rowApply_hash (d : EntryC) (r : Row) :
    (rowApply d r).value_hash = r.value_hash :=
  congrArg Core.value_hash (rowApply_core d r)

theorem rowUpdR_nil (r : Row) : rowUpdR [] r = r := rfl

theorem rowUpdR_cons (d : EntryC) (ds : List EntryC) (r : Row) :
    rowUpdR (d :: ds) r = rowUpdR ds (rowApply d r) := rfl

theorem rowUpdR_core (ds : List EntryC) (r : Row) : (rowUpdR ds r).core = r.core := by
  induction ds generalizing r with
  | nil => rfl
  | cons d ds ih => rw [rowUpdR_cons, ih, rowApply_core]

theorem setCoordsR_congr {r2 r : Row} (v : CoordVals) (h : r2.core = r.core) :
    setCoordsR v r2 = setCoordsR v r := by
  cases r2
  cases r
  injection h with h1 h2 h3 h4 h5 h6
  subst h1; subst h2; subst h3; subst h4; subst h5; subst h6
  rfl

theorem rowApply_some {d : EntryC} {v : CoordVals} (r : Row)
    (hv : entryVals d = some v) :
    rowApply d r = if r.value_hash = d.value_hash then setCoordsR v r else r := by
  rw [rowApply, hv]

theorem rowApply_none {d : EntryC} (r : Row) (hv : entryVals d = none) :
    rowApply d r = r := by
  rw [rowApply, hv]

theorem rowUpdR_congr : ∀ (ds : List EntryC) (r2 r : Row), r2.core = r.core →
    ((∃ d ∈ ds, r.value_hash = d.value_hash ∧ (entryVals d).isSome) →
      rowUpdR ds r2 = rowUpdR ds r) ∧
    ((∀ d ∈ ds, r.value_hash = d.value_hash → (entryVals d).isSome → False) →
      rowUpdR ds r2 = r2 ∧ rowUpdR ds r = r) := by
  intro ds
  induction ds with
  | nil =>
    intro r2 r hcore
    refine ⟨?_, ?_⟩
    · rintro ⟨d, hd, -⟩
      cases hd
    · intro _
      exact ⟨rfl, rfl⟩
  | cons d ds ih =>
    intro r2 r hcore
    have hhash : r2.value_hash = r.value_hash := congrArg Core.value_hash hcore
    cases hv : entryVals d with
    | none =>
      rw [rowUpdR_cons, rowUpdR_cons, rowApply_none r2 hv, rowApply_none r hv]
      refine ⟨?_, ?_⟩
      · rintro ⟨u, hu, hmatch, husome⟩
        rcases List.mem_cons.mp hu with he | he
        · subst he
          rw [hv] at husome
          exact Bool.noConfusion husome
        · exact (ih r2 r hcore).1 ⟨u, he, hmatch, husome⟩
      · intro hno
        exact (ih r2 r hcore).2 (fun u hu h1 h2 => hno u (by simp [hu]) h1 h2)
    | some v =>
      by_cases hm : r.value_hash = d.value_hash
      · have heq : rowUpdR (d :: ds) r2 = rowUpdR (d :: ds) r := by
          rw [rowUpdR_cons, rowUpdR_cons, rowApply_some r2 hv, rowApply_some r hv,
            if_pos (hhash.trans hm), if_pos hm, setCoordsR_congr v hcore]
        refine ⟨fun _ => heq, ?_⟩
        intro hno
        exact (hno d (by simp) hm (by rw [hv]; rfl)).elim
      · rw [rowUpdR_cons, rowUpdR_cons, rowApply_some r2 hv, rowApply_some r hv,
          if_neg (fun hc => hm (hhash.symm.trans hc ▸ rfl)), if_neg hm]
        refine ⟨?_, ?_⟩
        · rintro ⟨u, hu, hmatch, husome⟩
          rcases List.mem_cons.mp hu with he | he
          · exact absurd (he ▸ hmatch) hm
          · exact (ih r2 r hcore).1 ⟨u, he, hmatch, husome⟩
        · intro hno
          exact (ih r2 r hcore).2 (fun u hu h1 h2 => hno u (by simp [hu]) h1 h2)

theorem rowUpdR_idem (ds : List EntryC) (r : Row) :
    rowUpdR ds (rowUpdR ds r) = rowUpdR ds r := by
  have hcore : (rowUpdR ds r).core = r.core := rowUpdR_core ds r
  by_cases hex : ∃ d ∈ ds, r.value_hash = d.value_hash ∧ (entryVals d).isSome
  · exact (rowUpdR_congr ds (rowUpdR ds r) r hcore).1 hex
  · push_neg at hex
    have h2 := (rowUpdR_congr ds (rowUpdR ds r) r hcore).2
      (fun u hu h1 hs => hex u hu h1 hs)
    exact h2.1

end Reduce

namespace Reduce

theorem entryVals_some_inv {d : EntryC} {v : CoordVals}
    (h : entryVals d = some v) :
    d.umap_2d.get? 0 = some v.x2 ∧ d.umap_2d.get? 1 = some v.y2 ∧
    d.umap_3d.get? 0 = some v.x3 ∧ d.umap_3d.get? 1 = some v.y3 ∧
    d.umap_3d.get? 2 = some v.z3 := by
  unfold entryVals at h
  cases h0 : d.umap_2d.get? 0 with
  | none => rw [h0] at h; exact Option.noConfusion h
  | some x2 =>
  rw [h0] at h
  cases h1 : d.umap_2d.get? 1 with
  | none => rw [h1] at h; exact Option.noConfusion h
  | some y2 =>
  rw [h1] at h
  cases h2 : d.umap_3d.get? 0 with
  | none => rw [h2] at h; exact Option.noConfusion h
  | some x3 =>
  rw [h2] at h
  cases h3 : d.umap_3d.get? 1 with
  | none => rw [h3] at h; exact Option.noConfusion h
  | some y3 =>
  rw [h3] at h
  cases h4 : d.umap_3d.get? 2 with
  | none => rw [h4] at h; exact Option.noConfusion h
  | some z3 =>
  rw [h4] at h
  have h5 : some (⟨x2, y2, x3, y3, z3⟩ : CoordVals) = some v := h
  injection h5 with h6
  exact ⟨by rw [← h6], by rw [← h6], by rw [← h6], by rw [← h6], by rw [← h6]⟩

theorem update_database_nil (s : Store) : update_database s [] = .ok s := rfl

theorem update_database_cons_some {d : EntryC} {v : CoordVals} (s : Store)
    (rest : List EntryC) (hv : entryVals d = some v) :
    update_database s (d :: rest) =
      update_database (sqlUpdateByHash d.value_hash v.x2 v.y2 v.x3 v.y3 v.z3 s) rest := by
  obtain ⟨h0, h1, h2, h3, h4⟩ := entryVals_some_inv hv
  rw [update_database]
  simp only [getCoord, h0, h1, h2, h3, h4]
  rfl

theorem update_database_cons_none {d : EntryC} (s : Store)
    (rest : List EntryC) (hv : entryVals d = none) :
    update_database s (d :: rest) = .error "IndexError" := by
  unfold entryVals at hv
  rw [update_database]
  cases h0 : d.umap_2d.get? 0 with
  | none => simp only [getCoord, h0]; rfl
  | some x2 =>
  rw [h0] at hv
  cases h1 : d.umap_2d.get? 1 with
  | none => simp only [getCoord, h0, h1]; rfl
  | some y2 =>
  rw [h1] at hv
  cases h2 : d.umap_3d.get? 0 with
  | none => simp only [getCoord, h0, h1, h2]; rfl
  | some x3 =>
  rw [h2] at hv
  cases h3 : d.umap_3d.get? 1 with
  | none => simp only [getCoord, h0, h1, h2, h3]; rfl
  | some y3 =>
  rw [h3] at hv
  cases h4 : d.umap_3d.get? 2 with
  | none => simp only [getCoord, h0, h1, h2, h3, h4]; rfl
  | some z3 =>
  rw [h4] at hv
  exact Option.noConfusion hv

theorem sqlUpdateByHash_eq_map {d : EntryC} {v : CoordVals}
    (hv : entryVals d = some v) (s : Store) :
    sqlUpdateByHash d.value_hash v.x2 v.y2 v.x3 v.y3 v.z3 s =
      s.map (rowApply d) := by
  unfold sqlUpdateByHash
  apply List.map_congr_left
  intro r _
  rw [rowApply_some r hv]
  rfl

theorem update_database_ok_char :
    ∀ (ds : List EntryC) (s : Store) {t : Store}, update_database s ds = .ok t →
    (∀ d ∈ ds, (entryVals d).isSome) ∧ t = s.map (rowUpdR ds) := by
  intro ds
  induction ds with
  | nil =>
    intro s t h
    rw [update_database_nil] at h
    injection h with h2
    refine ⟨by simp, ?_⟩
    rw [← h2, show (rowUpdR [] : Row → Row) = id from rfl, List.map_id]
  | cons d rest ih =>
    intro s t h
    cases hv : entryVals d with
    | none =>
      rw [update_database_cons_none s rest hv] at h
      exact Except.noConfusion h
    | some v =>
      rw [update_database_cons_some s rest hv] at h
      obtain ⟨hall, ht⟩ := ih _ h
      refine ⟨?_, ?_⟩
      · intro u hu
        rcases List.mem_cons.mp hu with he | he
        · rw [he, hv]; rfl
        · exact hall u he
      · rw [ht, sqlUpdateByHash_eq_map hv, List.map_map]
        apply List.map_congr_left
        intro r _
        rfl

theorem update_database_ok_exists :
    ∀ (ds : List EntryC) (s : Store), (∀ d ∈ ds, (entryVals d).isSome) →
    update_database s ds = .ok (s.map (rowUpdR ds)) := by
  intro ds
  induction ds with
  | nil =>
    intro s _
    rw [update_database_nil,
      show (rowUpdR [] : Row → Row) = id from rfl, List.map_id]
  | cons d rest ih =>
    intro s hall
    obtain ⟨v, hv⟩ := Option.isSome_iff_exists.mp (hall d (by simp))
    rw [update_database_cons_some s rest hv,
      ih _ (fun u hu => hall u (by simp [hu])), sqlUpdateByHash_eq_map hv,
      List.map_map]
    refine congrArg _ (List.map_congr_left ?_)
    intro r _
    rfl

theorem fetch_congr {s t : Store} (h : t.map Row.core = s.map Row.core) :
    fetch_embeddings t = fetch_embeddings s := by
  unfold fetch_embeddings
  rw [h]

theorem expectRow_ok {m : List (List Q)} {i : Nat} {v : List Q} :
    expectRow m i = .ok v ↔ m.get? i = some v := by
  unfold expectRow
  cases h : m.get? i with
  | none => simp
  | some w =>
    constructor
    · intro h2
      injection h2 with h3
      rw [h3]
    · intro h2
      injection h2 with h3
      rw [h3]

theorem attachCoords_ok_char {c2 c3 : List (List Q)} :
    ∀ (data : List Entry) (i : Nat) {out : List EntryC},
    attachCoords c2 c3 i data = .ok out →
    out.length = data.length ∧
    ∀ p d, data.get? p = some d →
      ∃ r2 r3, c2.get? (i + p) = some r2 ∧ c3.get? (i + p) = some r3 ∧
        out.get? p = some ⟨d.value_hash, d.value, d.embedding, d.source_table,
          d.source_column, d.usage_count, r2, r3⟩ := by
  intro data
  induction data with
  | nil =>
    intro i out h
    rw [attachCoords] at h
    injection h with h2
    subst h2
    exact ⟨rfl, by intro p d hp; simp at hp⟩
  | cons d rest ih =>
    intro i out h
    rw [attachCoords] at h
    cases h2 : expectRow c2 i with
    | error e => rw [h2] at h; exact Except.noConfusion h
    | ok r2 =>
    rw [h2] at h
    cases h3 : expectRow c3 i with
    | error e => rw [h3] at h; exact Except.noConfusion h
    | ok r3 =>
    rw [h3] at h
    cases h4 : attachCoords c2 c3 (i + 1) rest with
    | error e => rw [h4] at h; exact Except.noConfusion h
    | ok tail =>
    rw [h4] at h
    have h5 : (Except.ok (⟨d.value_hash, d.value, d.embedding, d.source_table,
        d.source_column, d.usage_count, r2, r3⟩ :: tail) :
        Except String (List EntryC)) = .ok out := h
    injection h5 with h6
    subst h6
    obtain ⟨hlen, hget⟩ := ih (i + 1) h4
    refine ⟨by simp [hlen], ?_⟩
    intro p e hp
    cases p with
    | zero =>
      simp only [List.get?_cons_zero, Option.some.injEq] at hp
      subst hp
      refine ⟨r2, r3, ?_, ?_, rfl⟩
      · rw [Nat.add_zero]; exact expectRow_ok.mp h2
      · rw [Nat.add_zero]; exact expectRow_ok.mp h3
    | succ p =>
      simp only [List.get?_cons_succ] at hp ⊢
      obtain ⟨s2, s3, hs2, hs3, hout⟩ := hget p e hp
      refine ⟨s2, s3, ?_, ?_, hout⟩
      · rw [show i + (p + 1) = i + 1 + p by omega]; exact hs2
      · rw [show i + (p + 1) = i + 1 + p by omega]; exact hs3

theorem run_umap_ok_inv {proj : List (List Q) → Nat → List (List Q)}
    {data : List Entry} {out : List EntryC}
    (h : run_umap proj data = .ok out) :
    uniformRows (data.map (fun d => d.embedding)) = true ∧
    attachCoords (proj (data.map (fun d => d.embedding)) 2)
      (proj (data.map (fun d => d.embedding)) 3) 0 data = .ok out := by
  simp only [run_umap] at h
  split at h
  · exact ⟨by assumption, h⟩
  · exact Except.noConfusion h

theorem export_tsv_ok_inv {data : List EntryC} {arts : Artifacts}
    (h : export_tsv data = .ok arts) :
    ∃ l2 l3, eachOk line2 data = .ok l2 ∧ eachOk line3 data = .ok l3 ∧
      arts = ⟨joinStr l2, joinStr l3, metaHeader ++ joinStr (data.map metaLine)⟩ := by
  unfold export_tsv at h
  cases h2 : eachOk line2 data with
  | error e => rw [h2] at h; exact Except.noConfusion h
  | ok l2 =>
  rw [h2] at h
  cases h3 : eachOk line3 data with
  | error e => rw [h3] at h; exact Except.noConfusion h
  | ok l3 =>
  rw [h3] at h
  have h4 : (Except.ok (⟨joinStr l2, joinStr l3,
      metaHeader ++ joinStr (data.map metaLine)⟩ : Artifacts) :
      Except String Artifacts) = .ok arts := h
  injection h4 with h5
  exact ⟨l2, l3, rfl, rfl, h5.symm⟩

theorem pipeline_ok_inv {s : Store} {proj : List (List Q) → Nat → List (List Q)}
    {t : Store} {a : Artifacts} (h : pipeline s proj = .ok (t, a)) :
    ∃ data dataC, fetch_embeddings s = .ok data ∧
      run_umap proj data = .ok dataC ∧
      update_database s dataC = .ok t ∧ export_tsv dataC = .ok a := by
  unfold pipeline at h
  cases h1 : fetch_embeddings s with
  | error e => rw [h1] at h; exact Except.noConfusion h
  | ok data =>
  rw [h1] at h
  simp only [exceptBind_ok] at h
  cases h2 : run_umap proj data with
  | error e => rw [h2] at h; exact Except.noConfusion h
  | ok dataC =>
  rw [h2] at h
  simp only [exceptBind_ok] at h
  cases h3 : update_database s dataC with
  | error e => rw [h3] at h; exact Except.noConfusion h
  | ok t2 =>
  rw [h3] at h
  simp only [exceptBind_ok] at h
  cases h4 : export_tsv dataC with
  | error e => rw [h4] at h; exact Except.noConfusion h
  | ok a2 =>
  rw [h4] at h
  have h5 : (Except.ok (t2, a2) : Except String (Store × Artifacts)) = .ok (t, a) := h
  injection h5 with h6
  injection h6 with h7 h8
  subst h7
  subst h8
  exact ⟨data, dataC, rfl, h2, h3, h4⟩

end Reduce

namespace Reduce

theorem parseRow_ok_hash {c : Core} {e : Entry} (h : parseRow c = .ok e) :
    e.value_hash = c.value_hash := by
  unfold parseRow at h
  cases hc : c.embedding_small with
  | none => rw [hc] at h; exact Except.noConfusion h
  | some es =>
    rw [hc] at h
    have h2 : (match parseVector es with
      | Except.ok v =>
        Except.ok (⟨c.value_hash, c.value, v, c.source_table,
          c.source_column, c.usage_count⟩ : Entry)
      | Except.error msg => Except.error msg) = Except.ok e := h
    cases hp : parseVector es with
    | error msg => rw [hp] at h2; exact Except.noConfusion h2
    | ok v =>
      rw [hp] at h2
      injection h2 with h3
      rw [← h3]

theorem fetch_ok_mem {s : Store} {data : List Entry}
    (h : fetch_embeddings s = .ok data) {r : Row} (hr : r ∈ s)
    (he : r.embedding_small ≠ none) :
    ∃ en ∈ data, en.value_hash = r.value_hash := by
  simp only [fetch_embeddings, fetchCore] at h
  split at h
  · exact Except.noConfusion h
  · have hmem : r.core ∈ List.insertionSort
        (fun a b => strLe a.value_hash b.value_hash = true)
        ((s.map Row.core).filter (fun c => c.embedding_small ≠ none)) := by
      rw [List.mem_insertionSort, List.mem_filter]
      exact ⟨List.mem_map_of_mem Row.core hr, by simpa using he⟩
    obtain ⟨e, he2, hpe⟩ := eachOk_mem_exists _ h _ hmem
    exact ⟨e, he2, parseRow_ok_hash hpe⟩

theorem run_umap_mem {proj : List (List Q) → Nat → List (List Q)}
    {data : List Entry} {out : List EntryC} (h : run_umap proj data = .ok out) :
    ∀ en ∈ data, ∃ e2 ∈ out, e2.value_hash = en.value_hash := by
  obtain ⟨hu, hat⟩ := run_umap_ok_inv h
  obtain ⟨hlen, hget⟩ := attachCoords_ok_char data 0 hat
  intro en hen
  obtain ⟨p, hp⟩ := List.mem_iff_get?.mp hen
  obtain ⟨r2, r3, hs2, hs3, hout⟩ := hget p en hp
  exact ⟨_, List.get?_mem hout, rfl⟩

theorem rowApply_fiveSome_keep {d : EntryC} {r : Row}
    (h : r.umap_x_2d.isSome ∧ r.umap_y_2d.isSome ∧ r.umap_x_3d.isSome ∧
      r.umap_y_3d.isSome ∧ r.umap_z_3d.isSome) :
    (rowApply d r).umap_x_2d.isSome ∧ (rowApply d r).umap_y_2d.isSome ∧
    (rowApply d r).umap_x_3d.isSome ∧ (rowApply d r).umap_y_3d.isSome ∧
    (rowApply d r).umap_z_3d.isSome := by
  rw [rowApply]
  split
  · split
    · exact ⟨rfl, rfl, rfl, rfl, rfl⟩
    · exact h
  · exact h

theorem rowUpdR_fiveSome_keep (ds : List EntryC) (r : Row)
    (h : r.umap_x_2d.isSome ∧ r.umap_y_2d.isSome ∧ r.umap_x_3d.isSome ∧
      r.umap_y_3d.isSome ∧ r.umap_z_3d.isSome) :
    (rowUpdR ds r).umap_x_2d.isSome ∧ (rowUpdR ds r).umap_y_2d.isSome ∧
    (rowUpdR ds r).umap_x_3d.isSome ∧ (rowUpdR ds r).umap_y_3d.isSome ∧
    (rowUpdR ds r).umap_z_3d.isSome := by
  induction ds generalizing r with
  | nil => exact h
  | cons d ds ih => exact ih _ (rowApply_fiveSome_keep h)

theorem rowUpdR_fiveSome_of_match : ∀ (ds : List EntryC) (r : Row),
    (∀ d ∈ ds, (entryVals d).isSome) →
    (∃ d ∈ ds, r.value_hash = d.value_hash) →
    (rowUpdR ds r).umap_x_2d.isSome ∧ (rowUpdR ds r).umap_y_2d.isSome ∧
    (rowUpdR ds r).umap_x_3d.isSome ∧ (rowUpdR ds r).umap_y_3d.isSome ∧
    (rowUpdR ds r).umap_z_3d.isSome := by
  intro ds
  induction ds with
  | nil =>
    intro r _ hex
    obtain ⟨d, hd, -⟩ := hex
    cases hd
  | cons d ds ih =>
    intro r hall hex
    obtain ⟨v, hv⟩ := Option.isSome_iff_exists.mp (hall d (by simp))
    rw [rowUpdR_cons, rowApply_some r hv]
    by_cases hm : r.value_hash = d.value_hash
    · rw [if_pos hm]
      exact rowUpdR_fiveSome_keep ds _ ⟨rfl, rfl, rfl, rfl, rfl⟩
    · rw [if_neg hm]
      obtain ⟨u, hu, hru⟩ := hex
      rcases List.mem_cons.mp hu with heq | heq
      · exact absurd (heq ▸ hru) hm
      · exact ih r (fun x hx => hall x (by simp [hx])) ⟨u, heq, hru⟩

end Reduce

/-! ## Line counting for the metadata file -/

theorem string_data_append (a b : String) : (a ++ b).data = a.data ++ b.data := rfl

theorem lineCount_append (a b : String) :
    lineCount (a ++ b) = lineCount a + lineCount b := by
  simp [lineCount, string_data_append, List.count_append]

theorem lineCount_joinStr : ∀ l : List String,
    lineCount (joinStr l) = (l.map lineCount).sum := by
  intro l
  induction l with
  | nil => rfl
  | cons a l ih =>
    rw [joinStr, lineCount_append, ih]
    simp

theorem sanitize_lineCount (v : String) : lineCount (sanitize v) = 0 := by
  rw [lineCount, sanitize]
  rw [List.count_eq_zero]
  intro hmem
  obtain ⟨c, _, hc⟩ := List.mem_map.mp hmem
  rw [sanitizeChar] at hc
  split at hc
  · exact absurd hc (by decide)
  next hne =>
    rw [hc] at hne
    exact hne (Or.inr (Or.inl rfl))

theorem natDigitsGo_no_newline : ∀ (fuel n : Nat), '\n' ∉ natDigitsGo fuel n := by
  intro fuel
  induction fuel with
  | zero => intro n h; cases h
  | succ fuel ih =>
    intro n h
    rw [natDigitsGo] at h
    split at h
    · cases h
    · rcases List.mem_append.mp h with h2 | h2
      · exact ih _ h2
      · have h10 : n % 10 < 10 := Nat.mod_lt _ (by omega)
        have hne : ∀ m, m < 10 → Nat.digitChar m ≠ '\n' := by decide
        rcases List.mem_singleton.mp h2 with h3
        exact hne (n % 10) h10 h3.symm

theorem pyStrNat_lineCount (n : Nat) : lineCount (pyStrNat n) = 0 := by
  rw [pyStrNat]
  split
  · rfl
  · rw [lineCount, List.count_eq_zero]
    intro h
    exact natDigitsGo_no_newline n n h

theorem lineCount_metaLine (d : Reduce.EntryC)
    (hst : '\n' ∉ d.source_table.data) (hsc : '\n' ∉ d.source_column.data) :
    lineCount (Reduce.metaLine d) = 1 := by
  rw [Reduce.metaLine]
  rw [lineCount_append, lineCount_append, lineCount_append, lineCount_append,
    lineCount_append, lineCount_append, lineCount_append]
  rw [sanitize_lineCount, pyStrNat_lineCount]
  have h1 : lineCount "\t" = 0 := rfl
  have h2 : lineCount "\n" = 1 := rfl
  have h3 : lineCount d.source_table = 0 := List.count_eq_zero.mpr hst
  have h4 : lineCount d.source_column = 0 := List.count_eq_zero.mpr hsc
  rw [h1, h2, h3, h4]

/-! ## Schema lemmas -/

theorem foldl_insert_mem_iff :
    ∀ (l : List String) (sch : Finset String) (a : String),
    a ∈ l.foldl (fun s c => insert c s) sch ↔ a ∈ sch ∨ a ∈ l := by
  intro l
  induction l with
  | nil => intro sch a; simp
  | cons c l ih =>
    intro sch a
    rw [List.foldl_cons, ih]
    simp only [Finset.mem_insert, List.mem_cons]
    tauto

namespace UpdateDb

theorem ensure_go_char :
    ∀ (cols : List String) (sch acc : Finset String),
    (∀ c ∈ cols, strStartsWith c "umap_") → cols.Nodup → sch ⊆ acc →
    (∀ c ∈ cols, c ∈ acc → c ∈ sch) →
    cols.foldlM
      (fun sch2 c =>
        if c ∈ sch.filter (fun x => strStartsWith x "umap_") then
          (Except.ok sch2 : Except String (Finset String))
        else if c ∈ sch2 then .error "DuplicateColumn: column already exists"
        else .ok (insert c sch2)) acc = .ok (acc ∪ cols.toFinset) := by
  intro cols
  induction cols with
  | nil =>
    intro sch acc _ _ _ _
    simp only [List.foldlM_nil, List.toFinset_nil, Finset.union_empty]
    rfl
  | cons c cols ih =>
    intro sch acc hstart hnodup hsub hmem
    rw [List.foldlM_cons]
    by_cases hc : c ∈ sch.filter (fun x => strStartsWith x "umap_")
    · rw [if_pos hc]
      have hcin : c ∈ acc := hsub (Finset.mem_filter.mp hc).1
      have h2 := ih sch acc (fun x hx => hstart x (by simp [hx]))
        (List.nodup_cons.mp hnodup).2 hsub
        (fun x hx hxa => hmem x (by simp [hx]) hxa)
      rw [show (Except.ok acc >>= fun x => List.foldlM _ x cols) =
        List.foldlM _ acc cols from rfl]
      rw [h2]
      refine congrArg _ ?_
      have : c ∈ acc ∪ cols.toFinset := Finset.mem_union_left _ hcin
      ext x
      simp only [Finset.mem_union, List.toFinset_cons, Finset.mem_insert]
      constructor
      · tauto
      · rintro (h3 | h3 | h3)
        · exact Or.inl h3
        · subst h3
          exact Or.inl hcin
        · exact Or.inr h3
    · rw [if_neg hc]
      have hcna : c ∉ acc := by
        intro hca
        have hcs : c ∈ sch := hmem c (by simp) hca
        exact hc (Finset.mem_filter.mpr ⟨hcs, hstart c (by simp)⟩)
      rw [if_neg hcna]
      have hnd := List.nodup_cons.mp hnodup
      have h2 := ih sch (insert c acc) (fun x hx => hstart x (by simp [hx]))
        hnd.2 (fun x hx => Finset.mem_insert_of_mem (hsub hx))
        (fun x hx hxa => by
          rcases Finset.mem_insert.mp hxa with he | he
          · exact absurd (he ▸ hx) hnd.1
          · exact hmem x (by simp [hx]) he)
      rw [show ((Except.ok (insert c acc) : Except String (Finset String)) >>=
        fun x => List.foldlM _ x cols) = List.foldlM _ (insert c acc) cols from rfl]
      rw [h2]
      refine congrArg _ ?_
      ext x
      simp only [Finset.mem_union, Finset.mem_insert, List.toFinset_cons]
      tauto

end UpdateDb

namespace Populate

theorem applyWrite_fiveSome_keep {t : WriteRow} {r : Record}
    (h : r.umap_x_2d.isSome ∧ r.umap_y_2d.isSome ∧ r.umap_x_3d.isSome ∧
      r.umap_y_3d.isSome ∧ r.umap_z_3d.isSome) :
    (applyWrite t r).umap_x_2d.isSome ∧ (applyWrite t r).umap_y_2d.isSome ∧
    (applyWrite t r).umap_x_3d.isSome ∧ (applyWrite t r).umap_y_3d.isSome ∧
    (applyWrite t r).umap_z_3d.isSome := by
  rw [applyWrite]
  split
  · exact ⟨rfl, rfl, rfl, rfl, rfl⟩
  · exact h

theorem rowUpd_fiveSome_keep (ts : List WriteRow) (r : Record)
    (h : r.umap_x_2d.isSome ∧ r.umap_y_2d.isSome ∧ r.umap_x_3d.isSome ∧
      r.umap_y_3d.isSome ∧ r.umap_z_3d.isSome) :
    (rowUpd ts r).umap_x_2d.isSome ∧ (rowUpd ts r).umap_y_2d.isSome ∧
    (rowUpd ts r).umap_x_3d.isSome ∧ (rowUpd ts r).umap_y_3d.isSome ∧
    (rowUpd ts r).umap_z_3d.isSome := by
  induction ts generalizing r with
  | nil => exact h
  | cons t ts ih => exact ih _ (applyWrite_fiveSome_keep h)

theorem rowUpd_fiveSome_of_match : ∀ (ts : List WriteRow) (r : Record),
    (∃ u ∈ ts, r.id = u.rid) →
    (rowUpd ts r).umap_x_2d.isSome ∧ (rowUpd ts r).umap_y_2d.isSome ∧
    (rowUpd ts r).umap_x_3d.isSome ∧ (rowUpd ts r).umap_y_3d.isSome ∧
    (rowUpd ts r).umap_z_3d.isSome := by
  intro ts
  induction ts with
  | nil =>
    intro r hex
    obtain ⟨u, hu, -⟩ := hex
    cases hu
  | cons t ts ih =>
    intro r hex
    rw [rowUpd_cons]
    by_cases hm : r.id = t.rid
    · rw [applyWrite, if_pos hm]
      exact rowUpd_fiveSome_keep ts _ ⟨rfl, rfl, rfl, rfl, rfl⟩
    · rw [applyWrite, if_neg hm]
      obtain ⟨u, hu, hru⟩ := hex
      rcases List.mem_cons.mp hu with heq | heq
      · exact absurd (heq ▸ hru) hm
      · exact ih r ⟨u, heq, hru⟩

theorem mainRun_zero_inv {s : Store} {cf : Nat → Bool}
    {p2 : List (List Q) → List (Q × Q)} {p3 : List (List Q) → List (Q × Q × Q)}
    {t : Store} (h : mainRun s cf p2 p3 = (0, t)) :
    (t = s ∧ ∀ r ∈ s, r.umap_x_2d ≠ none) ∨
    (∃ ts, t = s.map (rowUpd ts) ∧
      ∀ r ∈ s, r.umap_x_2d = none → ∃ u ∈ ts, r.id = u.rid) := by
  simp only [mainRun] at h
  split at h
  case isTrue hem =>
    injection h with h1 h2
    subst h2
    exact Or.inl ⟨rfl, (fetch_ids_nil_iff s).mp (List.isEmpty_iff.mp hem)⟩
  case isFalse hem =>
    split at h
    case h_1 =>
      injection h with h1 h2
      exact absurd h1 one_ne_zero
    case h_2 embs hembs =>
      split at h
      case h_1 t1 e hupd =>
        injection h with h1 h2
        exact absurd h1 one_ne_zero
      case h_2 t1 m hupd =>
        split at h
        case h_1 =>
          injection h with h1 h2
          exact absurd h1 one_ne_zero
        case h_2 =>
          injection h with h1 h2
          subst h2
          obtain ⟨ts, hts, ht, hm⟩ := update_ok_char hupd
          refine Or.inr ⟨ts, ht, ?_⟩
          intro r hr hx
          have hmem : r.id ∈ (fetch_embeddings s).1 := fetch_id_mem hr hx
          obtain ⟨j, hj⟩ := List.mem_iff_get?.mp hmem
          have hjlt : j < (fetch_embeddings s).1.length := by
            by_contra hge
            rw [List.get?_eq_none.mpr (by omega)] at hj
            exact Option.noConfusion hj
          have hlen : ts.length = (fetch_embeddings s).1.length :=
            (eachSome_length _ hts).trans (List.length_range _)
          have hget : ts.get? j =
              writeTuple (fetch_embeddings s).1 (p2 embs) (p3 embs) j :=
            eachSome_get _ hts j j (by
              rw [List.get?_eq_getElem?, List.getElem?_range (by omega)])
          have hsome : ts.get? j ≠ none := by
            rw [ne_eq, List.get?_eq_none]
            omega
          obtain ⟨tj, htj⟩ := Option.ne_none_iff_exists.mp hsome
          rw [← htj] at hget
          obtain ⟨a, b, i0, _, _, hi0, htj2⟩ := writeTuple_some_inv hget.symm
          refine ⟨tj, List.get?_mem htj.symm, ?_⟩
          rw [hi0] at hj
          injection hj with hj2
          rw [htj2, hj2]

end Populate

/-! ## Claim theorems -/

theorem fmtAgg_ne_zerodiv (o : Option Q) :
    Populate.fmtAgg o ≠ .error "ZeroDivisionError: division by zero" := by
  unfold Populate.fmtAgg
  cases o with
  | none =>
    intro h
    injection h with h2
    exact absurd h2 (by decide)
  | some q =>
    intro h
    exact Except.noConfusion h

/-- Claim C10: `verify_population` divides its counts by the total row
count of `embedding_cache`; on a store with zero rows it raises
`ZeroDivisionError` instead of reporting zero counts, and a zero divisor
is the only way that error arises (any non-empty store avoids it). -/
theorem C10_verify_division_by_zero :
    Populate.verify_population [] = .error "ZeroDivisionError: division by zero" ∧
    ∀ s : Populate.Store, s ≠ [] →
      Populate.verify_population s ≠ .error "ZeroDivisionError: division by zero" := by
  constructor
  · rfl
  · intro s hs
    have hlen : s.length ≠ 0 := by
      intro h0
      exact hs (List.eq_nil_of_length_eq_zero h0)
    have hdiv : ∀ a : Q, pydiv a (qofNat s.length) ≠
        .error "ZeroDivisionError: division by zero" := by
      intro a
      unfold pydiv
      rw [if_neg]
      · intro h
        exact Except.noConfusion h
      · simp only [qzero, qofNat, decide_eq_true_eq]
        intro h
        exact hlen (by exact_mod_cast h)
    simp only [Populate.verify_population]
    apply exceptBind_ne_error (hdiv _)
    intro pct2
    apply exceptBind_ne_error (hdiv _)
    intro pct3
    apply exceptBind_ne_error (fmtAgg_ne_zerodiv _)
    intro r1
    apply exceptBind_ne_error (fmtAgg_ne_zerodiv _)
    intro r2
    apply exceptBind_ne_error (fmtAgg_ne_zerodiv _)
    intro r3
    apply exceptBind_ne_error (fmtAgg_ne_zerodiv _)
    intro r4
    apply exceptBind_ne_error (fmtAgg_ne_zerodiv _)
    intro r5
    apply exceptBind_ne_error (fmtAgg_ne_zerodiv _)
    intro r6
    apply exceptBind_ne_error (fmtAgg_ne_zerodiv _)
    intro r7
    apply exceptBind_ne_error (fmtAgg_ne_zerodiv _)
    intro r8
    apply exceptBind_ne_error (fmtAgg_ne_zerodiv _)
    intro r9
    apply exceptBind_ne_error (fmtAgg_ne_zerodiv _)
    intro r10
    intro h
    exact Except.noConfusion h

/-- Witness for C10 at a concrete non-empty store. -/
theorem C10_witness :
    Populate.verify_population [c2skiprec] ≠
      .error "ZeroDivisionError: division by zero" :=
  C10_verify_division_by_zero.2 [c2skiprec] (by simp)

/-- Claim C2 as stated is false: a record in partial coordinate state
(2D present, 3D absent) still has a stored vector, yet `fetch_embeddings`
of `populate-umap-coordinates.py` returns it in no list — the `WHERE
umap_x_2d IS NULL` filter excludes it instead of treating it as pending. -/
theorem C2_counterexample :
    Populate.fetch_embeddings [c2skiprec] = ([], [], []) ∧
    c2skiprec.umap_x_2d ≠ none ∧ c2skiprec.umap_x_3d = none ∧
    c2skiprec.embedding_small ≠ none := by
  refine ⟨rfl, ?_, rfl, ?_⟩
  · intro h
    exact Option.noConfusion h
  · intro h
    exact Option.noConfusion h

/-- Claim C2, amended: the pending query returns exactly the records
whose `umap_x_2d` is NULL (so 3D-only partial records are included but
2D-only partial records are excluded), as ids ordered ascending. -/
theorem C2_fetchPending_amended :
    ∀ s : Populate.Store,
      List.Sorted (· ≤ ·) (Populate.fetch_embeddings s).1 ∧
      (Populate.fetch_embeddings s).1.Perm
        ((s.filter (fun r => r.umap_x_2d = none)).map (fun r => r.id)) := by
  intro s
  constructor
  · unfold Populate.fetch_embeddings
    have hs := List.sorted_insertionSort (fun a b : Populate.Record => a.id ≤ b.id)
      (s.filter (fun r => r.umap_x_2d = none))
    exact List.pairwise_map.mpr hs
  · unfold Populate.fetch_embeddings
    exact (List.perm_insertionSort _ _).map _

/-- Claim C8 as stated is false for the extraction scripts: with zero
rows carrying vectors, `fetch_embeddings` of `umap-reduce.py` calls
`sys.exit(1)` (modelled as an error), and `main` of
`01_extract_embeddings.py` exits with status 1 — a failure, not a
normal success. -/
theorem C8_counterexample :
    Reduce.fetch_embeddings ([] : Reduce.Store) =
      .error "No embeddings found in database" ∧
    Extract.mainExitCode ([] : List Extract.SourceRow) = 1 := ⟨rfl, rfl⟩

/-- Claim C8, amended: only `populate-umap-coordinates.py` treats zero
pending records as a normal success (exit 0, store untouched);
`umap-reduce.py` and `01_extract_embeddings.py` exit with failure
status 1 in that situation. -/
theorem C8_zero_pending_amended :
    (∀ (s : Populate.Store) (cf : Nat → Bool)
        (p2 : List (List Q) → List (Q × Q))
        (p3 : List (List Q) → List (Q × Q × Q)),
      (∀ r ∈ s, r.umap_x_2d ≠ none) → Populate.mainRun s cf p2 p3 = (0, s)) ∧
    (∀ s : Reduce.Store, s.filter (fun r => r.embedding_small ≠ none) = [] →
      Reduce.fetch_embeddings s = .error "No embeddings found in database") ∧
    (∀ s : List Extract.SourceRow, s.filter (fun r => r.embedding ≠ none) = [] →
      Extract.mainExitCode s = 1) := by
  refine ⟨Populate.mainRun_nothing, ?_, ?_⟩
  · intro s hf
    simp only [Reduce.fetch_embeddings, Reduce.fetchCore]
    rw [List.filter_map]
    rw [show (List.filter ((fun c => decide (c.embedding_small ≠ none)) ∘ Reduce.Row.core) s) =
      List.filter (fun r => decide (r.embedding_small ≠ none)) s from rfl]
    rw [hf]
    rfl
  · intro s hf
    simp only [Extract.mainExitCode, Extract.extract_embeddings]
    rw [hf]
    rfl

/-- Witness for C8 at concrete stores with nothing pending. -/
theorem C8_witness :
    Populate.mainRun [c2skiprec] (fun _ => false) w1pp2 w1pp3 = (0, [c2skiprec]) ∧
    Reduce.fetch_embeddings [w8row] = .error "No embeddings found in database" ∧
    Extract.mainExitCode ([] : List Extract.SourceRow) = 1 :=
  ⟨C8_zero_pending_amended.1 [c2skiprec] (fun _ => false) w1pp2 w1pp3
      (by intro r hr; rw [List.mem_singleton] at hr; subst hr; intro h; exact Option.noConfusion h),
    C8_zero_pending_amended.2.1 [w8row] rfl,
    C8_zero_pending_amended.2.2 [] rfl⟩

theorem add_umap_mem_iff (sch : Finset String) (c : String) :
    c ∈ Reduce.add_umap_columns sch ↔ c ∈ sch ∨
      ("umap_x_2d" ∉ sch ∧ (c = "umap_x_2d" ∨ c = "umap_y_2d")) ∨
      ("umap_x_3d" ∉ sch ∧ (c = "umap_x_3d" ∨ c = "umap_y_3d" ∨ c = "umap_z_3d")) := by
  unfold Reduce.add_umap_columns
  rw [foldl_insert_mem_iff]
  have eA : ("umap_x_2d" ∈ sch.filter (fun c => c ∈ umapColumns)) ↔
      "umap_x_2d" ∈ sch := by
    rw [Finset.mem_filter]
    simp [umapColumns]
  have eB : ("umap_x_3d" ∈ sch.filter (fun c => c ∈ umapColumns)) ↔
      "umap_x_3d" ∈ sch := by
    rw [Finset.mem_filter]
    simp [umapColumns]
  by_cases hA : "umap_x_2d" ∈ sch <;> by_cases hB : "umap_x_3d" ∈ sch
  all_goals simp [eA, eB, hA, hB]
  all_goals tauto

/-- Claim C5 as stated is false for `add_umap_columns` of
`umap-reduce.py`: it checks only `umap_x_2d` and `umap_x_3d`, so from a
schema that contains `umap_x_2d` but not `umap_y_2d`, two invocations
still leave `umap_y_2d` missing (zero instances, not one). -/
theorem C5_counterexample :
    "umap_y_2d" ∉
      Reduce.add_umap_columns (Reduce.add_umap_columns {"umap_x_2d"}) ∧
    "umap_y_2d" ∉ ({"umap_x_2d"} : Finset String) := by
  constructor
  · decide
  · decide

/-- Claim C5, amended: `ensure_umap_columns` of `03_update_database.py`
invoked twice from any schema ends with each of the five columns present
exactly once and raises no error on either invocation;
`add_umap_columns` of `umap-reduce.py` is idempotent and always ends
with `umap_x_2d` and `umap_x_3d` present, but guarantees the remaining
columns only when the initial schema does not contain `umap_x_2d`
without `umap_y_2d` nor `umap_x_3d` without `umap_y_3d`/`umap_z_3d`. -/
theorem C5_ensure_columns_amended :
    (∀ sch : Finset String, ∃ t, UpdateDb.ensure_umap_columns sch = .ok t ∧
      (∀ c ∈ umapColumns, c ∈ t) ∧ UpdateDb.ensure_umap_columns t = .ok t) ∧
    (∀ sch : Finset String,
      Reduce.add_umap_columns (Reduce.add_umap_columns sch) =
        Reduce.add_umap_columns sch ∧
      "umap_x_2d" ∈ Reduce.add_umap_columns sch ∧
      "umap_x_3d" ∈ Reduce.add_umap_columns sch ∧
      (("umap_x_2d" ∈ sch → "umap_y_2d" ∈ sch) →
       ("umap_x_3d" ∈ sch → "umap_y_3d" ∈ sch ∧ "umap_z_3d" ∈ sch) →
        ∀ c ∈ umapColumns, c ∈ Reduce.add_umap_columns sch)) := by
  constructor
  · intro sch
    have h1 := UpdateDb.ensure_go_char umapColumns sch sch (by decide) (by decide)
      (Finset.Subset.refl sch) (fun _ _ h => h)
    refine ⟨sch ∪ umapColumns.toFinset, ?_, ?_, ?_⟩
    · simp only [UpdateDb.ensure_umap_columns]
      exact h1
    · intro c hc
      exact Finset.mem_union_right _ (List.mem_toFinset.mpr hc)
    · have h2 := UpdateDb.ensure_go_char umapColumns (sch ∪ umapColumns.toFinset)
        (sch ∪ umapColumns.toFinset) (by decide) (by decide)
        (Finset.Subset.refl _) (fun _ _ h => h)
      simp only [UpdateDb.ensure_umap_columns]
      rw [h2]
      refine congrArg _ ?_
      rw [Finset.union_assoc, Finset.union_self]
  · intro sch
    have hx2 : "umap_x_2d" ∈ Reduce.add_umap_columns sch := by
      rw [add_umap_mem_iff]
      by_cases h : "umap_x_2d" ∈ sch
      · exact Or.inl h
      · exact Or.inr (Or.inl ⟨h, Or.inl rfl⟩)
    have hx3 : "umap_x_3d" ∈ Reduce.add_umap_columns sch := by
      rw [add_umap_mem_iff]
      by_cases h : "umap_x_3d" ∈ sch
      · exact Or.inl h
      · exact Or.inr (Or.inr ⟨h, Or.inl rfl⟩)
    refine ⟨?_, hx2, hx3, ?_⟩
    · ext c
      rw [add_umap_mem_iff]
      constructor
      · intro h
        rcases h with h | ⟨h1, h2⟩ | ⟨h1, h2⟩
        · exact h
        · exact absurd hx2 h1
        · exact absurd hx3 h1
      · exact Or.inl
    · intro h2d h3d c hc
      rw [add_umap_mem_iff]
      rcases (by simpa [umapColumns] using hc :
          c = "umap_x_2d" ∨ c = "umap_y_2d" ∨ c = "umap_x_3d" ∨
          c = "umap_y_3d" ∨ c = "umap_z_3d") with h | h | h | h | h
      all_goals subst h
      · by_cases hm : "umap_x_2d" ∈ sch
        · exact Or.inl hm
        · exact Or.inr (Or.inl ⟨hm, Or.inl rfl⟩)
      · by_cases hm : "umap_x_2d" ∈ sch
        · exact Or.inl (h2d hm)
        · exact Or.inr (Or.inl ⟨hm, Or.inr rfl⟩)
      · by_cases hm : "umap_x_3d" ∈ sch
        · exact Or.inl hm
        · exact Or.inr (Or.inr ⟨hm, Or.inl rfl⟩)
      · by_cases hm : "umap_x_3d" ∈ sch
        · exact Or.inl (h3d hm).1
        · exact Or.inr (Or.inr ⟨hm, Or.inr (Or.inl rfl)⟩)
      · by_cases hm : "umap_x_3d" ∈ sch
        · exact Or.inl (h3d hm).2
        · exact Or.inr (Or.inr ⟨hm, Or.inr (Or.inr rfl)⟩)

/-- Claim C9 as stated is false: `export_tsv` sanitizes only the
`value` field.  A record whose `source_table` contains a newline is
written raw, the metadata differs from the fully-sanitized form the
spec describes, and the file gains an extra line (3 lines for header
plus one record instead of 2). -/
theorem C9_counterexample :
    Reduce.export_tsv [c9entry] = .ok c9arts ∧
    c9arts.metadata ≠
      Reduce.metaHeader ++ joinStr [Reduce.metaLineClaimed c9entry] ∧
    lineCount c9arts.metadata = 3 := by
  refine ⟨rfl, ?_, rfl⟩
  decide

/-- Claim C9, amended: the metadata file is the header followed by one
row per record where only `value` is sanitized (tab, LF and CR each
replaced by a space); `source_table` and `source_column` are written as
stored, so each record occupies exactly one line only when those two
fields contain no newline. -/
theorem C9_metadata_sanitization_amended :
    ∀ (data : List Reduce.EntryC) (arts : Reduce.Artifacts),
      Reduce.export_tsv data = .ok arts →
      arts.metadata = Reduce.metaHeader ++ joinStr (data.map Reduce.metaLine) ∧
      ((∀ d ∈ data, '\n' ∉ d.source_table.data ∧ '\n' ∉ d.source_column.data) →
        lineCount arts.metadata = 1 + data.length) := by
  intro data arts h
  obtain ⟨l2, l3, h2, h3, harts⟩ := Reduce.export_tsv_ok_inv h
  subst harts
  refine ⟨rfl, ?_⟩
  intro hclean
  rw [lineCount_append, lineCount_joinStr]
  have hhead : lineCount Reduce.metaHeader = 1 := rfl
  rw [hhead, List.map_map]
  have hmap : data.map (lineCount ∘ Reduce.metaLine) = data.map (fun _ => 1) := by
    apply List.map_congr_left
    intro d hd
    exact lineCount_metaLine d (hclean d hd).1 (hclean d hd).2
  rw [hmap]
  simp

/-- Witness for C9 at a clean concrete entry. -/
theorem C9_witness :
    Reduce.export_tsv [w9entry] = .ok w9arts ∧
    w9arts.metadata = Reduce.metaHeader ++ joinStr ([w9entry].map Reduce.metaLine) ∧
    lineCount w9arts.metadata = 1 + 1 := by
  have h := C9_metadata_sanitization_amended [w9entry] w9arts rfl
  exact ⟨rfl, h.1, h.2 (by decide)⟩

/-- Claim C4 as stated is false: extraction has no per-row error
handling.  With one well-formed and one truncated stored vector, the
whole fetch raises (nothing is skipped or counted, the good row is not
decoded either). -/
theorem C4_counterexample :
    Reduce.fetch_embeddings [c4good, c4bad] =
      .error "ValueError: could not convert string to float" := rfl

/-- Claim C4, amended: extraction decodes every stored vector of the
filtered rows in order; if all of them parse, the batch holds exactly
one decoded row per filtered record (nothing skipped, no skip counter
exists), and if any one is malformed the whole extraction aborts with
the raised error — in both `umap-reduce.py` and
`01_extract_embeddings.py`. -/
theorem C4_extraction_aborts_amended :
    (∀ (s : Reduce.Store) (r : Reduce.Row), r ∈ s → r.embedding_small ≠ none →
      exceptIsOk (Reduce.parseRow r.core) = false →
      ∃ e, Reduce.fetch_embeddings s = .error e) ∧
    (∀ s : Reduce.Store,
      (∀ c ∈ (s.map Reduce.Row.core).filter (fun c => c.embedding_small ≠ none),
        exceptIsOk (Reduce.parseRow c) = true) →
      s.filter (fun r => r.embedding_small ≠ none) ≠ [] →
      ∃ data, Reduce.fetch_embeddings s = .ok data ∧
        data.length = (s.filter (fun r => r.embedding_small ≠ none)).length) ∧
    (∀ (s : List Extract.SourceRow) (r : Extract.SourceRow) (es : String),
      r ∈ s → r.embedding = some es → Extract.parseVector01 es = none →
      ∃ e, Extract.extract_embeddings s = .error e) := by
  refine ⟨?_, ?_, ?_⟩
  · intro s r hr he hbad
    simp only [Reduce.fetch_embeddings, Reduce.fetchCore]
    split
    · exact ⟨"No embeddings found in database", rfl⟩
    · apply eachOk_error_of_mem
      · rw [List.mem_insertionSort, List.mem_filter]
        exact ⟨List.mem_map_of_mem Reduce.Row.core hr, by simpa using he⟩
      · intro b hb
        rw [hb] at hbad
        exact Bool.noConfusion hbad
  · intro s hok hne
    simp only [Reduce.fetch_embeddings, Reduce.fetchCore]
    have hlen : ((s.map Reduce.Row.core).filter
        (fun c => c.embedding_small ≠ none)).length =
        (s.filter (fun r => r.embedding_small ≠ none)).length := by
      rw [List.filter_map]
      rw [show (List.filter ((fun c => decide (c.embedding_small ≠ none)) ∘ Reduce.Row.core) s) =
        List.filter (fun r => decide (r.embedding_small ≠ none)) s from rfl]
      rw [List.length_map]
    have hcond : (List.insertionSort (fun a b => strLe a.value_hash b.value_hash = true)
        ((s.map Reduce.Row.core).filter (fun c => c.embedding_small ≠ none))).isEmpty
        = false := by
      cases hie : (List.insertionSort (fun a b => strLe a.value_hash b.value_hash = true)
          ((s.map Reduce.Row.core).filter (fun c => c.embedding_small ≠ none))).isEmpty
      · rfl
      · exfalso
        have hnil := List.isEmpty_iff.mp hie
        have hl0 : (List.insertionSort (fun a b => strLe a.value_hash b.value_hash = true)
            ((s.map Reduce.Row.core).filter
              (fun c => c.embedding_small ≠ none))).length = 0 := by
          rw [hnil]
          rfl
        rw [List.length_insertionSort, hlen] at hl0
        exact hne (List.eq_nil_of_length_eq_zero hl0)
    rw [hcond, if_neg (by simp)]
    obtain ⟨data, hdata⟩ := eachOk_ok_of_forall Reduce.parseRow
      (l := List.insertionSort (fun a b => strLe a.value_hash b.value_hash = true)
        ((s.map Reduce.Row.core).filter (fun c => c.embedding_small ≠ none)))
      (fun c hc => by
        have hc2 := hok c ((List.mem_insertionSort _).mp hc)
        cases hp : Reduce.parseRow c with
        | ok b => exact ⟨b, rfl⟩
        | error e =>
          rw [hp] at hc2
          exact Bool.noConfusion hc2)
    refine ⟨data, hdata, ?_⟩
    rw [eachOk_length _ hdata, List.length_insertionSort, hlen]
  · intro s r es hr he hbad
    simp only [Extract.extract_embeddings]
    have hmem : r ∈ List.insertionSort (fun a b => a.id ≤ b.id)
        (s.filter (fun r => r.embedding ≠ none)) := by
      rw [List.mem_insertionSort, List.mem_filter]
      refine ⟨hr, by simp [he]⟩
    obtain ⟨e, he2⟩ := eachOk_error_of_mem
      (fun r : Extract.SourceRow =>
        match r.embedding with
        | none => (.error "TypeError: embedding is NULL" :
            Except String (List Q × Extract.Meta))
        | some es =>
          match Extract.parseVector01 es with
          | some v =>
            .ok (v, ⟨r.id, r.value, r.value_hash, r.source_table,
              r.source_column, r.usage_count, r.created_at⟩)
          | none => .error "ValueError: could not convert string to float")
      hmem
      (fun b hb => by
        have hb0 : (match r.embedding with
          | none => (.error "TypeError: embedding is NULL" :
              Except String (List Q × Extract.Meta))
          | some es =>
            match Extract.parseVector01 es with
            | some v =>
              .ok (v, ⟨r.id, r.value, r.value_hash, r.source_table,
                r.source_column, r.usage_count, r.created_at⟩)
            | none => .error "ValueError: could not convert string to float") =
              Except.ok b := hb
        rw [he] at hb0
        have hb2 : (match Extract.parseVector01 es with
          | some v =>
            (Except.ok (v, (⟨r.id, r.value, r.value_hash, r.source_table,
              r.source_column, r.usage_count, r.created_at⟩ : Extract.Meta)) :
              Except String (List Q × Extract.Meta))
          | none => .error "ValueError: could not convert string to float") =
            Except.ok b := hb0
        rw [hbad] at hb2
        exact Except.noConfusion hb2)
    rw [he2]
    exact ⟨e, rfl⟩

/-- Witness for C4: a malformed row aborts the whole extraction, a
well-formed store decodes completely, and the numbered extraction
script aborts the same way. -/
theorem C4_witness :
    (∃ e, Reduce.fetch_embeddings [c4good, c4bad] = .error e) ∧
    (∃ data, Reduce.fetch_embeddings [c4good] = .ok data ∧
      data.length =
        (([c4good] : Reduce.Store).filter
          (fun r => r.embedding_small ≠ none)).length) ∧
    (∃ e, Extract.extract_embeddings [x4row] = .error e) :=
  ⟨C4_extraction_aborts_amended.1 [c4good, c4bad] c4bad (by simp)
      (fun h => Option.noConfusion h) rfl,
    C4_extraction_aborts_amended.2.1 [c4good] (by decide) (by decide),
    C4_extraction_aborts_amended.2.2 [x4row] x4row "[1.0," (by simp) rfl rfl⟩

/-- Claim C3 as stated is false: in `populate-umap-coordinates.py` a
failed batch commit propagates as an exception — the run aborts with a
`WriteError` instead of attempting later batches and reporting degraded
success (here the single batch fails and nothing is written). -/
theorem C3_counterexample :
    Populate.update_umap_coordinates [w1prec] [1] [(qofNat 0, qofNat 0)]
      [(qofNat 0, qofNat 0, qofNat 0)] (fun _ => true) =
      ([w1prec], .error "WriteError: batch commit failed") := rfl

/-- Claim C3, amended: in the batched writer of
`populate-umap-coordinates.py`, when the commit of batch `k` is the
first to fail, exactly the rows of batches `0..k-1` stay committed and
the call raises — no later batch is attempted.  In the per-row writer of
`03_update_database.py` every row is attempted: failures are caught and
counted, successes stay applied, and `updated + failed` covers all rows. -/
theorem C3_batch_failure_amended :
    (∀ (s : Populate.Store) (ids : List Int) (c2 : List (Q × Q))
        (c3 : List (Q × Q × Q)) (cf : Nat → Bool) (k : Nat),
      ids.length ≤ c2.length → ids.length ≤ c3.length →
      Populate.BATCH_SIZE * k < ids.length →
      (∀ j, j < k → cf j = false) → cf k = true →
      ∃ ts, eachSome (Populate.writeTuple ids c2 c3)
          (List.range (Populate.BATCH_SIZE * k)) = some ts ∧
        Populate.update_umap_coordinates s ids c2 c3 cf =
          (s.map (Populate.rowUpd ts), .error "WriteError: batch commit failed")) ∧
    (∀ (s : Populate.Store) (ids : List Int) (c2 : List (Q × Q))
        (c3 : List (Q × Q × Q)) (rf : Nat → Bool),
      UpdateDb.update_umap_coordinates s ids c2 c3 rf =
        (s.map (Populate.rowUpd
            (UpdateDb.okTuples ids c2 c3 rf (List.range ids.length))),
          (UpdateDb.okTuples ids c2 c3 rf (List.range ids.length)).length,
          ids.length -
            (UpdateDb.okTuples ids c2 c3 rf (List.range ids.length)).length)) := by
  constructor
  · intro s ids c2 c3 cf k hc2 hc3 hk hprev hfail
    have h100 : (0 : Nat) < 100 := by norm_num
    have hsome : ∀ js ∈ chunkList Populate.BATCH_SIZE (List.range ids.length),
        (eachSome (Populate.writeTuple ids c2 c3) js).isSome := by
      intro js hjs
      apply eachSome_isSome_of_forall
      intro j hj
      have hjf : j ∈ (chunkList Populate.BATCH_SIZE (List.range ids.length)).flatten :=
        List.mem_flatten.mpr ⟨js, hjs, hj⟩
      rw [chunkList_flatten Populate.BATCH_SIZE (by norm_num [Populate.BATCH_SIZE])] at hjf
      have hjn : j < ids.length := List.mem_range.mp hjf
      exact Populate.writeTuple_isSome (by omega) (by omega) hjn
    have hklt : k < (chunkList Populate.BATCH_SIZE (List.range ids.length)).length := by
      rw [chunkList_length Populate.BATCH_SIZE (by norm_num [Populate.BATCH_SIZE]),
        List.length_range]
      have h1 : k + 1 ≤ (ids.length + Populate.BATCH_SIZE - 1) / Populate.BATCH_SIZE := by
        rw [Nat.le_div_iff_mul_le (by norm_num [Populate.BATCH_SIZE])]
        simp only [Populate.BATCH_SIZE] at hk ⊢
        omega
      omega
    obtain ⟨ts, hts, heq⟩ := Populate.updateGo_err_char ids c2 c3 cf
      (chunkList Populate.BATCH_SIZE (List.range ids.length)) k s 0 0 hsome hklt
      (fun j hj => by rw [Nat.zero_add]; exact hprev j hj)
      (by rw [Nat.zero_add]; exact hfail)
    rw [chunkList_take_flatten Populate.BATCH_SIZE
      (by norm_num [Populate.BATCH_SIZE]) k (List.range ids.length)] at hts
    rw [List.take_range] at hts
    rw [show min (k * Populate.BATCH_SIZE) ids.length = Populate.BATCH_SIZE * k by
      simp only [Populate.BATCH_SIZE] at hk ⊢
      omega] at hts
    exact ⟨ts, hts, heq⟩
  · intro s ids c2 c3 rf
    exact UpdateDb.update_char s ids c2 c3 rf

/-- Witness for C3 at a one-row store whose only batch commit fails. -/
theorem C3_witness :
    (∃ ts, eachSome (Populate.writeTuple [1] [(qofNat 0, qofNat 0)]
        [(qofNat 0, qofNat 0, qofNat 0)]) (List.range (Populate.BATCH_SIZE * 0)) =
          some ts ∧
      Populate.update_umap_coordinates [w1prec] [1] [(qofNat 0, qofNat 0)]
        [(qofNat 0, qofNat 0, qofNat 0)] (fun _ => true) =
        (([w1prec] : Populate.Store).map (Populate.rowUpd ts),
          .error "WriteError: batch commit failed")) ∧
    UpdateDb.update_umap_coordinates [w1prec] [1] [(qofNat 0, qofNat 0)]
      [(qofNat 0, qofNat 0, qofNat 0)] (fun _ => true) =
      (([w1prec] : Populate.Store).map (Populate.rowUpd
          (UpdateDb.okTuples [1] [(qofNat 0, qofNat 0)]
            [(qofNat 0, qofNat 0, qofNat 0)] (fun _ => true) (List.range 1))),
        (UpdateDb.okTuples [1] [(qofNat 0, qofNat 0)]
          [(qofNat 0, qofNat 0, qofNat 0)] (fun _ => true) (List.range 1)).length,
        1 - (UpdateDb.okTuples [1] [(qofNat 0, qofNat 0)]
          [(qofNat 0, qofNat 0, qofNat 0)] (fun _ => true) (List.range 1)).length) :=
  ⟨C3_batch_failure_amended.1 [w1prec] [1] [(qofNat 0, qofNat 0)]
      [(qofNat 0, qofNat 0, qofNat 0)] (fun _ => true) 0 (by decide) (by decide)
      (by decide) (fun j hj => absurd hj (by omega)) rfl,
    C3_batch_failure_amended.2 [w1prec] [1] [(qofNat 0, qofNat 0)]
      [(qofNat 0, qofNat 0, qofNat 0)] (fun _ => true)⟩

/-- Claim C6: row-to-id alignment.  In the batched writer of
`populate-umap-coordinates.py`, on a successful run the record whose
`id` sits at position `i` of the id list ends up carrying row `i` of the
2D matrix and row `i` of the 3D matrix (writes are keyed by id).  In
`run_umap` of `umap-reduce.py`, entry `i` of the data list receives row
`i` of each projection output. -/
theorem C6_row_id_alignment :
    (∀ (s : Populate.Store) (ids : List Int) (c2 : List (Q × Q))
        (c3 : List (Q × Q × Q)) (cf : Nat → Bool) (t : Populate.Store) (m : Nat),
      Populate.update_umap_coordinates s ids c2 c3 cf = (t, .ok m) →
      ids.Nodup →
      ∀ (i : Nat) (hi : i < ids.length) (r : Populate.Record), r ∈ s →
        r.id = ids.get ⟨i, hi⟩ →
        ∃ a b, c2.get? i = some a ∧ c3.get? i = some b ∧
          Populate.setCoords ⟨a.1, a.2, b.1, b.2.1, b.2.2, ids.get ⟨i, hi⟩⟩ r ∈ t) ∧
    (∀ (proj : List (List Q) → Nat → List (List Q)) (data : List Reduce.Entry)
        (out : List Reduce.EntryC),
      Reduce.run_umap proj data = .ok out →
      ∀ (p : Nat) (d : Reduce.Entry), data.get? p = some d →
        ∃ r2 r3,
          (proj (data.map (fun x => x.embedding)) 2).get? p = some r2 ∧
          (proj (data.map (fun x => x.embedding)) 3).get? p = some r3 ∧
          out.get? p = some ⟨d.value_hash, d.value, d.embedding, d.source_table,
            d.source_column, d.usage_count, r2, r3⟩) := by
  constructor
  · intro s ids c2 c3 cf t m hupd hnodup i hi r hr hrid
    obtain ⟨ts, hts, ht, hm⟩ := Populate.update_ok_char hupd
    have hlen : ts.length = ids.length :=
      (eachSome_length _ hts).trans (List.length_range _)
    have hget : ts.get? i = Populate.writeTuple ids c2 c3 i :=
      eachSome_get _ hts i i (by
        rw [List.get?_eq_getElem?, List.getElem?_range hi])
    have hsome : ts.get? i ≠ none := by
      rw [ne_eq, List.get?_eq_none]
      omega
    obtain ⟨ti, hti⟩ := Option.ne_none_iff_exists.mp hsome
    rw [← hti] at hget
    obtain ⟨a, b, i0, ha, hb, hi0, hti2⟩ := Populate.writeTuple_some_inv hget.symm
    have hi0v : i0 = ids.get ⟨i, hi⟩ := by
      rw [List.get?_eq_get hi] at hi0
      injection hi0 with h2
      exact h2.symm
    have hmemti : ti ∈ ts := List.get?_mem hti.symm
    have hridti : r.id = ti.rid := by
      rw [hti2, hrid, hi0v]
    have huniq : ∀ u ∈ ts, r.id = u.rid → u = ti := by
      intro u hu hru
      obtain ⟨q, hq⟩ := List.mem_iff_get?.mp hu
      have hqlt : q < ts.length := by
        by_contra hge
        rw [List.get?_eq_none.mpr (by omega)] at hq
        exact Option.noConfusion hq
      have hgetq : ts.get? q = Populate.writeTuple ids c2 c3 q :=
        eachSome_get _ hts q q (by
          rw [List.get?_eq_getElem?, List.getElem?_range (by omega)])
      rw [hq] at hgetq
      obtain ⟨a2, b2, i02, _, _, hi02, hu2⟩ := Populate.writeTuple_some_inv hgetq.symm
      have hqids : ids.get? q = some r.id := by
        rw [hi02]
        refine congrArg _ ?_
        rw [hru, hu2]
      have hiids : ids.get? i = some r.id := by
        rw [List.get?_eq_get hi, ← hrid]
      have hqi : q = i := by
        apply List.getElem?_inj (by omega : q < ids.length) hnodup
        rw [← List.get?_eq_getElem?, ← List.get?_eq_getElem?, hqids, hiids]
      rw [hqi] at hq
      rw [← hti] at hq
      injection hq with h5
      exact h5.symm
    have hrupd : Populate.rowUpd ts r = Populate.setCoords ti r :=
      Populate.rowUpd_unique ts r ti hmemti hridti huniq
    refine ⟨a, b, ha, hb, ?_⟩
    rw [ht]
    have hmem2 : Populate.rowUpd ts r ∈ s.map (Populate.rowUpd ts) :=
      List.mem_map_of_mem _ hr
    rw [hrupd] at hmem2
    rw [show (⟨a.1, a.2, b.1, b.2.1, b.2.2, ids.get ⟨i, hi⟩⟩ : Populate.WriteRow) =
      ti by rw [hti2, hi0v]]
    exact hmem2
  · intro proj data out hrun p d hp
    obtain ⟨hu, hat⟩ := Reduce.run_umap_ok_inv hrun
    obtain ⟨hlen, hget⟩ := Reduce.attachCoords_ok_char data 0 hat
    obtain ⟨r2, r3, h2, h3, hout⟩ := hget p d hp
    rw [Nat.zero_add] at h2 h3
    exact ⟨r2, r3, h2, h3, hout⟩

/-- Witness for C6 on a one-row store and a one-entry projection run. -/
theorem C6_witness :
    (∃ a b, ([(qofNat 0, qofNat 0)] : List (Q × Q)).get? 0 = some a ∧
      ([(qofNat 0, qofNat 0, qofNat 0)] : List (Q × Q × Q)).get? 0 = some b ∧
      Populate.setCoords ⟨a.1, a.2, b.1, b.2.1, b.2.2,
        ([1] : List Int).get ⟨0, by decide⟩⟩ w1prec ∈ w6res.1) ∧
    (∃ r2 r3,
      (w1proj ([w6entry].map (fun x => x.embedding)) 2).get? 0 = some r2 ∧
      (w1proj ([w6entry].map (fun x => x.embedding)) 3).get? 0 = some r3 ∧
      (match Reduce.run_umap w1proj [w6entry] with
        | .ok out => out
        | .error _ => []).get? 0 =
        some ⟨w6entry.value_hash, w6entry.value, w6entry.embedding,
          w6entry.source_table, w6entry.source_column, w6entry.usage_count,
          r2, r3⟩) :=
  ⟨C6_row_id_alignment.1 [w1prec] [1] [(qofNat 0, qofNat 0)]
      [(qofNat 0, qofNat 0, qofNat 0)] (fun _ => false) w6res.1 1 rfl (by decide)
      0 (by decide) w1prec (by simp) (by decide),
    C6_row_id_alignment.2 w1proj [w6entry]
      (match Reduce.run_umap w1proj [w6entry] with
        | .ok out => out
        | .error _ => []) rfl 0 w6entry rfl⟩

/-- Claim C7: completeness.  After a successful `umap-reduce.py`
pipeline run, every stored record with a vector present carries both
the 2D pair and the 3D triple.  The `populate-umap-coordinates.py`
variant guarantees the same when, as in the 452-record scenario, no
record starts with coordinates already present. -/
theorem C7_completeness :
    (∀ (s : Reduce.Store) (proj : List (List Q) → Nat → List (List Q))
        (t : Reduce.Store) (a : Reduce.Artifacts),
      Reduce.pipeline s proj = .ok (t, a) →
      ∀ r ∈ t, r.embedding_small ≠ none →
        r.umap_x_2d.isSome ∧ r.umap_y_2d.isSome ∧ r.umap_x_3d.isSome ∧
        r.umap_y_3d.isSome ∧ r.umap_z_3d.isSome) ∧
    (∀ (s : Populate.Store) (cf : Nat → Bool)
        (p2 : List (List Q) → List (Q × Q))
        (p3 : List (List Q) → List (Q × Q × Q)) (t : Populate.Store),
      Populate.mainRun s cf p2 p3 = (0, t) →
      (∀ r ∈ s, r.umap_x_2d = none) →
      ∀ r ∈ t, r.umap_x_2d.isSome ∧ r.umap_y_2d.isSome ∧ r.umap_x_3d.isSome ∧
        r.umap_y_3d.isSome ∧ r.umap_z_3d.isSome) := by
  constructor
  · intro s proj t a h rr hrr hemb
    obtain ⟨data, dataC, hf, hrun, hupd, hexp⟩ := Reduce.pipeline_ok_inv h
    obtain ⟨hall, ht⟩ := Reduce.update_database_ok_char dataC s hupd
    subst ht
    obtain ⟨r, hr, hrw⟩ := List.mem_map.mp hrr
    have hembr : r.embedding_small ≠ none := by
      intro hn
      apply hemb
      rw [← hrw]
      have hc := Reduce.rowUpdR_core dataC r
      have := congrArg Reduce.Core.embedding_small hc
      simp only [Reduce.Row.core] at this
      rw [this, hn]
    obtain ⟨en, hen, henh⟩ := Reduce.fetch_ok_mem hf hr hembr
    obtain ⟨e2, he2, he2h⟩ := Reduce.run_umap_mem hrun en hen
    have hmatch : ∃ d ∈ dataC, r.value_hash = d.value_hash := by
      refine ⟨e2, he2, ?_⟩
      rw [he2h, henh]
    rw [← hrw]
    exact Reduce.rowUpdR_fiveSome_of_match dataC r hall hmatch
  · intro s cf p2 p3 t h hnone
    rcases Populate.mainRun_zero_inv h with ⟨ht, hall⟩ | ⟨ts, ht, hmatch⟩
    · intro r hr
      subst ht
      exact absurd (hnone r hr) (hall r hr)
    · subst ht
      intro rr hrr
      obtain ⟨r, hr, hrw⟩ := List.mem_map.mp hrr
      rw [← hrw]
      exact Populate.rowUpd_fiveSome_of_match ts r (hmatch r hr (hnone r hr))

/-- Witness for C7 on concrete one-record stores. -/
theorem C7_witness :
    (∀ r ∈ w1t, r.embedding_small ≠ none →
      r.umap_x_2d.isSome ∧ r.umap_y_2d.isSome ∧ r.umap_x_3d.isSome ∧
      r.umap_y_3d.isSome ∧ r.umap_z_3d.isSome) ∧
    (∀ r ∈ w1pt, r.umap_x_2d.isSome ∧ r.umap_y_2d.isSome ∧
      r.umap_x_3d.isSome ∧ r.umap_y_3d.isSome ∧ r.umap_z_3d.isSome) :=
  ⟨C7_completeness.1 [w1row] w1proj w1t w1a rfl,
    C7_completeness.2 [w1prec] (fun _ => false) w1pp2 w1pp3 w1pt rfl
      (by intro r hr; rw [List.mem_singleton] at hr; subst hr; rfl)⟩

/-- Claim C1: idempotence.  A second `umap-reduce.py` pipeline run on
the store produced by a successful first run (same opaque seeded
projector) leaves every stored coordinate unchanged and reproduces the
three export artifacts byte for byte.  A second
`populate-umap-coordinates.py` run on the store left by a successful
first run fetches nothing and returns the store untouched with exit 0. -/
theorem C1_pipeline_idempotent :
    (∀ (s : Reduce.Store) (proj : List (List Q) → Nat → List (List Q))
        (t : Reduce.Store) (a : Reduce.Artifacts),
      Reduce.pipeline s proj = .ok (t, a) → Reduce.pipeline t proj = .ok (t, a)) ∧
    (∀ (s : Populate.Store) (cf cf2 : Nat → Bool)
        (p2 : List (List Q) → List (Q × Q))
        (p3 : List (List Q) → List (Q × Q × Q)) (t : Populate.Store),
      Populate.mainRun s cf p2 p3 = (0, t) →
      Populate.mainRun t cf2 p2 p3 = (0, t)) := by
  constructor
  · intro s proj t a h
    obtain ⟨data, dataC, hf, hrun, hupd, hexp⟩ := Reduce.pipeline_ok_inv h
    obtain ⟨hall, ht⟩ := Reduce.update_database_ok_char dataC s hupd
    have hcore : t.map Reduce.Row.core = s.map Reduce.Row.core := by
      rw [ht, List.map_map]
      apply List.map_congr_left
      intro r _
      exact Reduce.rowUpdR_core dataC r
    have hf2 : Reduce.fetch_embeddings t = .ok data :=
      (Reduce.fetch_congr hcore).trans hf
    have hu2 : Reduce.update_database t dataC = .ok t := by
      rw [Reduce.update_database_ok_exists dataC t hall]
      refine congrArg _ ?_
      rw [ht, List.map_map]
      apply List.map_congr_left
      intro r _
      exact Reduce.rowUpdR_idem dataC r
    simp only [Reduce.pipeline]
    rw [hf2]
    simp only [exceptBind_ok]
    rw [hrun]
    simp only [exceptBind_ok]
    rw [hu2]
    simp only [exceptBind_ok]
    rw [hexp]
    rfl
  · intro s cf cf2 p2 p3 t h
    exact Populate.mainRun_nothing t cf2 p2 p3 (Populate.mainRun_zero_allSome h)

/-- Witness for C1: a concrete run and its repetition, for both
pipeline variants. -/
theorem C1_witness :
    Reduce.pipeline [w1row] w1proj = .ok (w1t, w1a) ∧
    Reduce.pipeline w1t w1proj = .ok (w1t, w1a) ∧
    Populate.mainRun [w1prec] (fun _ => false) w1pp2 w1pp3 = (0, w1pt) ∧
    Populate.mainRun w1pt (fun _ => true) w1pp2 w1pp3 = (0, w1pt) :=
  ⟨rfl, C1_pipeline_idempotent.1 [w1row] w1proj w1t w1a rfl, rfl,
    C1_pipeline_idempotent.2 [w1prec] (fun _ => false) (fun _ => true)
      w1pp2 w1pp3 w1pt rfl⟩

/-- Witness for C5 at the empty schema. -/
theorem C5_witness :
    (∃ t, UpdateDb.ensure_umap_columns (∅ : Finset String) = .ok t ∧
      (∀ c ∈ umapColumns, c ∈ t) ∧ UpdateDb.ensure_umap_columns t = .ok t) ∧
    (∀ c ∈ umapColumns, c ∈ Reduce.add_umap_columns (∅ : Finset String)) :=
  ⟨C5_ensure_columns_amended.1 ∅,
    (C5_ensure_columns_amended.2 ∅).2.2.2
      (fun h => absurd h (by decide)) (fun h => absurd h (by decide))⟩

/-- Claim C7 as stated is false for `populate-umap-coordinates.py`: a
record with a stored vector, `umap_x_2d` present and `umap_x_3d` absent
is excluded by the `WHERE umap_x_2d IS NULL` filter, so a run completes
with exit 0 while that record still lacks its 3D triple. -/
theorem C7_counterexample :
    Populate.mainRun [c2skiprec] (fun _ => true) w1pp2 w1pp3 = (0, [c2skiprec]) ∧
    c2skiprec.embedding_small ≠ none ∧ c2skiprec.umap_x_2d ≠ none ∧
    c2skiprec.umap_x_3d = none := by
  refine ⟨rfl, ?_, ?_, rfl⟩
  · intro h
    exact Option.noConfusion h
  · intro h
    exact Option.noConfusion h

end UmapPipeline
